import Mathlib

/-!
Shallow embedding of `airflow/www_rbac/security.py` (the RBAC reconciliation
engine and access-query service of `AirflowSecurityManager`), together with
proofs about its reconciliation passes and query operations.

The relational store (four entity kinds plus the role/grant join table) is
represented explicitly: permission and view-menu (resource) tables are lists
of names, grant rows (`ab_permission_view`) are rows with a numeric primary
key and two nullable name references, and each role carries the set of grant
row ids associated to it (`ab_permission_view_role`).  Grant rows are only
ever appended (with a fresh id) or deleted; they are never mutated.
-/

namespace AirflowRbac

/-- A row of `ab_permission_view`: a grant joining a permission to a
view-menu (resource).  Either reference may be null ("faulty" rows). -/
structure PermView where
  id : Nat
  permission : Option String
  view_menu : Option String
deriving DecidableEq, Repr

/-- A row of `ab_role` together with its slice of the
`ab_permission_view_role` join table: the set of grant-row ids attached to
the role.  Per the source, roles are identified by name. -/
structure Role where
  name : String
  permissions : Finset Nat
deriving DecidableEq

/-- The persistent store: permission names, view-menu names, grant rows and
roles, plus the id counter used for fresh grant-row primary keys. -/
structure Store where
  permissions : List String
  view_menus : List String
  pvms : List PermView
  roles : List Role
  nextId : Nat
deriving DecidableEq

/-- A `DagModel` row as consumed by `create_custom_dag_permission_view`
(resource discovery: read-only input to reconciliation). -/
structure DagModel where
  dag_id : String
  is_active : Bool
  is_paused : Bool
  is_subdag : Bool
deriving DecidableEq, Repr

/-- An `ab_user` as far as this module reads it: anonymity flag and the
list of role objects attached to the user. -/
structure AbUser where
  is_anonymous : Bool
  roles : List Role
deriving DecidableEq

/-! ## Role catalog (module-level constants of `security.py`) -/

/-- Source `VIEWER_VMS` from the source. -/
def VIEWER_VMS : List String :=
  ["Airflow", "DagModelView", "Browse", "DAG Runs", "DagRunModelView",
   "Task Instances", "TaskInstanceModelView", "SLA Misses", "SlaMissModelView",
   "Jobs", "JobModelView", "Logs", "LogModelView", "Docs", "Documentation",
   "Github", "About", "Version", "VersionView"]

/-- Source `USER_VMS = VIEWER_VMS` from the source. -/
def USER_VMS : List String := VIEWER_VMS

/-- Source `OP_VMS` from the source. -/
def OP_VMS : List String :=
  ["Admin", "Configurations", "ConfigurationView", "Connections",
   "ConnectionModelView", "Pools", "PoolModelView", "Variables",
   "VariableModelView", "XComs", "XComModelView"]

/-- Source `VIEWER_PERMS` from the source. -/
def VIEWER_PERMS : List String :=
  ["menu_access", "can_index", "can_list", "can_show", "can_chart",
   "can_dag_stats", "can_dag_details", "can_task_stats", "can_code",
   "can_log", "can_get_logs_with_metadata", "can_tries", "can_graph",
   "can_tree", "can_task", "can_task_instances", "can_xcom", "can_gantt",
   "can_landing_times", "can_duration", "can_blocked", "can_rendered",
   "can_pickle_info", "can_version"]

/-- Source `USER_PERMS` from the source. -/
def USER_PERMS : List String :=
  ["can_dagrun_clear", "can_run", "can_trigger", "can_add", "can_edit",
   "can_delete", "can_paused", "can_refresh", "can_success", "muldelete",
   "set_failed", "set_running", "set_success", "clear", "can_clear"]

/-- Source `OP_PERMS` from the source. -/
def OP_PERMS : List String := ["can_conf", "can_varimport"]

/-- Source `DAG_VMS = {'all_dags'}`: the global view-menu for dag-level access. -/
def DAG_VMS : List String := ["all_dags"]

/-- Source `DAG_PERMS = {'can_dag_read', 'can_dag_edit'}`. -/
def DAG_PERMS : List String := ["can_dag_read", "can_dag_edit"]

/-- One entry of `ROLE_CONFIGS`. -/
structure RoleConfig where
  role : String
  perms : List String
  vms : List String

/-- Source `ROLE_CONFIGS` from the source (Viewer, User, Op; the set unions of the
source are membership-equivalent list concatenations). -/
def ROLE_CONFIGS : List RoleConfig :=
  [⟨"Viewer", VIEWER_PERMS, VIEWER_VMS ++ DAG_VMS⟩,
   ⟨"User", VIEWER_PERMS ++ USER_PERMS ++ DAG_PERMS,
    VIEWER_VMS ++ DAG_VMS ++ USER_VMS⟩,
   ⟨"Op", VIEWER_PERMS ++ USER_PERMS ++ OP_PERMS ++ DAG_PERMS,
    VIEWER_VMS ++ DAG_VMS ++ USER_VMS ++ OP_VMS⟩]

/-- Source `EXISTING_ROLES`: the reserved built-in role-name list. -/
def EXISTING_ROLES : List String := ["Admin", "Viewer", "User", "Op", "Public"]

/-! ## Store adapter operations

These model the Flask-AppBuilder `SecurityManager` base-class CRUD surface
that `security.py` calls into (the spec's Grant Store Adapter: lookup by
name, lazy creation, row append with a fresh primary key). -/

/-- Source `find_role`: first role with the given name, if any. -/
def find_role (s : Store) (name : String) : Option Role :=
  s.roles.find? (fun r => r.name = name)

/-- Source `add_role`: append a new role with an empty grant set. -/
def add_role (s : Store) (name : String) : Store :=
  { s with roles := s.roles ++ [⟨name, ∅⟩] }

/-- Replace the grant set of every role carrying the given name (the DB
holds at most one thanks to the unique name constraint). -/
def update_role (s : Store) (name : String) (perms : Finset Nat) : Store :=
  { s with roles := s.roles.map (fun r =>
      if r.name = name then { r with permissions := perms } else r) }

/-- Source `find_permission`: whether a permission row with this name exists. -/
def find_permission (s : Store) (p : String) : Bool :=
  s.permissions.contains p

/-- Source `find_view_menu`: whether a view-menu row with this name exists. -/
def find_view_menu (s : Store) (v : String) : Bool :=
  s.view_menus.contains v

/-- Source `add_permission`: create the permission row if absent. -/
def add_permission (s : Store) (p : String) : Store :=
  if s.permissions.contains p then s
  else { s with permissions := s.permissions ++ [p] }

/-- Source `add_view_menu`: create the view-menu row if absent. -/
def add_view_menu (s : Store) (v : String) : Store :=
  if s.view_menus.contains v then s
  else { s with view_menus := s.view_menus ++ [v] }

/-- Source `add_permission_view_menu`: ensure the permission and view-menu rows
exist, then append a fresh grant row joining them. -/
def add_permission_view_menu (s : Store) (p v : String) : Store :=
  let s1 := add_permission (add_view_menu s v) p
  { s1 with pvms := s1.pvms ++ [⟨s1.nextId, some p, some v⟩],
            nextId := s1.nextId + 1 }

/-- Source `find_permission_view_menu`: the grant row joining the two named rows,
provided both named rows exist (as in the FAB base method). -/
def find_permission_view_menu (s : Store) (p v : String) : Option PermView :=
  if s.permissions.contains p && s.view_menus.contains v then
    s.pvms.find? (fun pv => pv.permission = some p && pv.view_menu = some v)
  else none

/-! ## Derived store views -/

/-- A grant row is valid when both references are set. -/
def PermView.validB (pv : PermView) : Bool :=
  pv.permission.isSome && pv.view_menu.isSome

/-- Source `pvms = [p for p in pvms if p.permission and p.view_menu]`: the valid
grant rows. -/
def validPvms (s : Store) : List PermView :=
  s.pvms.filter PermView.validB

/-- Ids of all valid grant rows. -/
def validIds (s : Store) : Finset Nat :=
  ((validPvms s).map PermView.id).toFinset

/-- The grant rows a role's association ids actually join to (the ORM view
of `role.permissions`: association entries whose grant row is gone produce
no element). -/
def rolePvms (s : Store) (r : Role) : List PermView :=
  s.pvms.filter (fun pv => decide (pv.id ∈ r.permissions))

/-- The (permission name, view-menu name) pairs of a role's grant rows,
for rows with both references present. -/
def rolePairs (s : Store) (r : Role) : Finset (String × String) :=
  ((rolePvms s r).filterMap (fun pv =>
    match pv.permission, pv.view_menu with
    | some p, some v => some (p, v)
    | _, _ => none)).toFinset

/-! ## Reconciliation engine (`AirflowSecurityManager` write side) -/

/-- The `init_role` seed filter: the row is valid, its view-menu name is
in `role_vms` and its permission name in `role_perms`. -/
def seedMatch (role_vms role_perms : List String) (pv : PermView) : Bool :=
  match pv.permission, pv.view_menu with
  | some p, some v => role_vms.contains v && role_perms.contains p
  | _, _ => false

/-- The ids of the grant rows of a row list that satisfy the seed filter. -/
def seedIdsList (rows : List PermView) (role_vms role_perms : List String) :
    Finset Nat :=
  ((rows.filter (seedMatch role_vms role_perms)).map PermView.id).toFinset

/-- The ids of the valid grant rows whose view-menu name is in `role_vms`
and whose permission name is in `role_perms` (the seed set computed by
`init_role`). -/
def seedIds (s : Store) (role_vms role_perms : List String) : Finset Nat :=
  seedIdsList s.pvms role_vms role_perms

/-- Source `init_role`: create the role if absent; if its (joined) grant list is
empty, replace its grant set by the seed set; otherwise leave it alone. -/
def init_role (s : Store) (role_name : String)
    (role_vms role_perms : List String) : Store :=
  let s1 := match find_role s role_name with
    | some _ => s
    | none => add_role s role_name
  match find_role s1 role_name with
  | none => s1
  | some role =>
    if (rolePvms s1 role).length = 0 then
      update_role s1 role_name (seedIds s1 role_vms role_perms)
    else s1

/-- Source `_merge_perm`: add the grant (and its permission/view-menu rows) unless
a valid grant row joining the two named rows already exists; the names must
be non-empty (Python truthiness). -/
def merge_perm (s : Store) (p v : String) : Store :=
  let pv_found := (find_permission_view_menu s p v).isSome
  if !pv_found && !(p = "") && !(v = "") then add_permission_view_menu s p v
  else s

/-- Source `create_perm_vm_for_all_dag`: `_merge_perm` for every pair in
`DAG_PERMS × DAG_VMS`. -/
def create_perm_vm_for_all_dag (s : Store) : Store :=
  DAG_VMS.foldl (fun t dag_vm =>
    DAG_PERMS.foldl (fun t2 perm => merge_perm t2 perm dag_vm) t) s

/-- The `all_pvs` snapshot taken at the start of
`create_custom_dag_permission_view`: the (permission name, view-menu name)
pairs of all valid grant rows. -/
def allPvsPairs (s : Store) : List (String × String) :=
  s.pvms.filterMap (fun pv =>
    match pv.permission, pv.view_menu with
    | some p, some v => some (p, v)
    | _, _ => none)

/-- The inner `merge_pv` helper.  NOTE (faithful to the source): the
snapshot holds `(permission, view_menu)` pairs but the guard tests the
reversed tuple `(view_menu, perm)`, so the cache test only fires when a
crossed row (permission named like the view-menu and vice versa) exists. -/
def merge_pv (allPvs : List (String × String)) (s : Store)
    (perm view_menu : String) : Store :=
  if !(view_menu = "") && !(perm = "") && !(allPvs.contains (view_menu, perm)) then
    merge_perm s perm view_menu
  else s

/-- Steps 1-3 of `create_custom_dag_permission_view`: take the `all_pvs`
snapshot, `merge_pv` the global dag pairs, then both dag permissions for
every dag model that is active or paused and not a subdag. -/
def provisionDagPvms (dags : List DagModel) (s : Store) : Store :=
  let allPvs := allPvsPairs s
  let s1 := DAG_VMS.foldl (fun t dag =>
    DAG_PERMS.foldl (fun t2 perm => merge_pv allPvs t2 perm dag) t) s
  let activeDags := dags.filter (fun d => (d.is_active || d.is_paused) && !d.is_subdag)
  activeDags.foldl (fun t d =>
    DAG_PERMS.foldl (fun t2 perm => merge_pv allPvs t2 perm d.dag_id) t) s1

/-- The reference id set of steps 5-6: association ids of the `User` role
whose grant row exists, joins to a view-menu (non-null reference) and is
not on the `all_dags` view-menu. -/
def refIds (s : Store) (user_role : Role) : Finset Nat :=
  user_role.permissions.filter (fun i =>
    s.pvms.any (fun pv =>
      pv.id == i && pv.view_menu.isSome && !(pv.view_menu == some "all_dags")))

/-- Steps 4-7 of `create_custom_dag_permission_view`: for every role whose
name is not reserved, bulk-insert the reference associations it is missing.
Fails (attribute error in the source) when the `User` role or the
`all_dags` view-menu row is absent. -/
def propagateUserPerms (s : Store) : Option Store :=
  match find_role s "User" with
  | none => none
  | some user_role =>
    if s.view_menus.contains "all_dags" then
      let all_perm_views := refIds s user_role
      some { s with roles := s.roles.map (fun r =>
        if EXISTING_ROLES.contains r.name then r
        else { r with permissions := r.permissions ∪ (all_perm_views \ r.permissions) }) }
    else none

/-- Source `create_custom_dag_permission_view`. -/
def create_custom_dag_permission_view (dags : List DagModel) (s : Store) :
    Option Store :=
  propagateUserPerms (provisionDagPvms dags s)

/-- Source `update_admin_perm_view`: set the `Admin` role's grant set to the union
of its current (joined) grant rows and all valid grant rows.  Fails when no
`Admin` role exists. -/
def update_admin_perm_view (s : Store) : Option Store :=
  match find_role s "Admin" with
  | none => none
  | some admin =>
    some (update_role s "Admin"
      ((admin.permissions.filter (fun i => s.pvms.any (fun pv => pv.id == i)))
        ∪ validIds s))

/-- Source `clean_perms`: delete every grant row with a null reference; returns
the new store and the deleted-row count that the source logs. -/
def clean_perms (s : Store) : Store × Nat :=
  let faulty := s.pvms.filter (fun pv => pv.permission.isNone || pv.view_menu.isNone)
  ({ s with pvms := s.pvms.filter PermView.validB }, faulty.length)

/-- Source `init_role` over every entry of `ROLE_CONFIGS`, in catalog order. -/
def seedRoles (s : Store) : Store :=
  ROLE_CONFIGS.foldl (fun t cfg => init_role t cfg.role cfg.vms cfg.perms) s

/-- Source `sync_roles`: the five ordered passes.  `dags` is the read-only dag
model listing consumed by `create_custom_dag_permission_view`. -/
def sync_roles (dags : List DagModel) (s : Store) : Option Store :=
  let s1 := create_perm_vm_for_all_dag s
  let s2 := seedRoles s1
  match create_custom_dag_permission_view dags s2 with
  | none => none
  | some s3 =>
    match update_admin_perm_view s3 with
    | none => none
    | some s4 => some (clean_perms s4).1

/-- One iteration of the `sync_perm_for_dag` loop: create the grant on the
given dag id unless it is already found. -/
def syncPermStep (t : Store) (perm dag_id : String) : Store :=
  match find_permission_view_menu t perm dag_id with
  | some _ => t
  | none => add_permission_view_menu t perm dag_id

/-- Source `sync_perm_for_dag`: the loop body `syncPermStep` for each dag
permission. -/
def sync_perm_for_dag (s : Store) (dag_id : String) : Store :=
  DAG_PERMS.foldl (fun t perm => syncPermStep t perm dag_id) s

/-! ## Access query service (read side) -/

/-- Python's `'Public' == role` for a FAB `Role` model object: a string
never compares equal to a `Role` instance (neither class defines a
cross-type equality), so the test is constantly false. -/
def pyStrEqRole (_ : String) (_ : Role) : Bool := false

/-- Python's `'Public' in username.roles`: membership via `==` against each
role object. -/
def pyStrInRoles (n : String) (roles : List Role) : Bool :=
  roles.any (fun r => pyStrEqRole n r)

/-- Source `get_user_roles`: the user's roles; for an anonymous user, the
configured public role when present.  (The source would place `None` in the
list when the configured role is missing; it is dropped here, and no claim
depends on that corner.) -/
def get_user_roles (pub : Option String) (s : Store) (u : AbUser) : List Role :=
  if u.is_anonymous then
    match pub with
    | some p =>
      match find_role s p with
      | some r => [r]
      | none => []
    | none => []
  else u.roles

/-- Source `get_all_permissions_views`: union over the current user's roles of
their (permission name, view-menu name) grant pairs.  (The source reads
`perm_view.permission.name` directly and would fault on a role attached to
a null-reference row; the pairs are taken over rows with both references
present.) -/
def get_all_permissions_views (pub : Option String) (s : Store) (u : AbUser) :
    Finset (String × String) :=
  (get_user_roles pub s u).foldl (fun acc r => acc ∪ rolePairs s r) ∅

/-- Source `get_accessible_dag_ids`.  `g_user` is the ambient `g.user`; `username`
the optional argument.  NOTE (faithful to the source): the final branch
calls `get_all_permissions_views()` with no argument, hence reads the
ambient user's grants, not `username`'s. -/
def get_accessible_dag_ids (pub : Option String) (s : Store) (g_user : AbUser)
    (username : Option AbUser) : Finset String :=
  let u := username.getD g_user
  if u.is_anonymous || pyStrInRoles "Public" u.roles then ∅
  else
    let roleNames : Finset String := (u.roles.map Role.name).toFinset
    if (({"Admin", "Viewer", "User", "Op"} : Finset String) ∩ roleNames).Nonempty then
      DAG_VMS.toFinset
    else
      ((get_all_permissions_views pub s g_user).filter
        (fun pr => DAG_PERMS.contains pr.1)).image Prod.snd

/-- Source `_has_perm` together with the `self.perms` cache made explicit: takes
the cache state (`none` when the attribute is unset) and returns the
decision plus the new cache state.  On a cache miss or an unset cache the
permission set is rebuilt from the current user's roles
(`_get_and_cache_perms`). -/
def has_perm (pub : Option String) (s : Store) (u : AbUser)
    (cache : Option (Finset (String × String))) (p v : String) :
    Bool × Finset (String × String) :=
  match cache with
  | some perms =>
    if (p, v) ∈ perms then (true, perms)
    else
      let fresh := get_all_permissions_views pub s u
      (decide ((p, v) ∈ fresh), fresh)
  | none =>
    let fresh := get_all_permissions_views pub s u
    (decide ((p, v) ∈ fresh), fresh)

/-! ## Well-formedness -/

/-- Store well-formedness: grant-row ids are distinct and below the id
counter (primary-key/autoincrement discipline), role names are distinct
(unique constraint), and role associations stay below the id counter. -/
def WF (s : Store) : Prop :=
  (s.pvms.map PermView.id).Nodup ∧
  (∀ pv ∈ s.pvms, pv.id < s.nextId) ∧
  (s.roles.map Role.name).Nodup ∧
  (∀ r ∈ s.roles, ∀ i ∈ r.permissions, i < s.nextId)

instance : DecidablePred WF := fun s => by
  unfold WF
  infer_instance

/-- No role is associated to a faulty (null-reference) grant row. -/
def NoOrphanAttached (s : Store) : Prop :=
  ∀ r ∈ s.roles, ∀ i ∈ r.permissions, ∀ pv ∈ s.pvms,
    pv.id = i → pv.validB = true

instance : DecidablePred NoOrphanAttached := fun s => by
  unfold NoOrphanAttached
  infer_instance

/-- The amended behaviour of `get_accessible_dag_ids` for the default
invocation, written from the amended claim: anonymous users get the empty
set; users with a role named `Admin`, `Viewer`, `User` or `Op` get the
wildcard sentinel set; all other users (public-only users included) get
exactly the resource names paired with either baseline dag permission in
the current user's effective grants. -/
def accessibleAmendedSpec (pub : Option String) (s : Store) (g : AbUser) :
    Finset String :=
  if g.is_anonymous then ∅
  else if g.roles.any (fun r => ["Admin", "Viewer", "User", "Op"].contains r.name) then
    {"all_dags"}
  else
    ((get_all_permissions_views pub s g).filter
      (fun pr => pr.1 = "can_dag_read" ∨ pr.1 = "can_dag_edit")).image Prod.snd

/-- Both name rows of a grant exist and a grant row joins them. -/
def RowEstablished (s : Store) (p v : String) : Prop :=
  p ∈ s.permissions ∧ v ∈ s.view_menus ∧
    ∃ pv ∈ s.pvms, pv.permission = some p ∧ pv.view_menu = some v

/-- The effect shape shared by the grant-provisioning operations
(`_merge_perm` and the `merge_pv` loops): permission and view-menu tables
only grow, grant rows are only appended, the appended rows are valid, carry
one of the two dag permissions and fresh ids, and roles are untouched. -/
structure AddOnly (t t' : Store) : Prop where
  perms_mono : ∀ x ∈ t.permissions, x ∈ t'.permissions
  vms_mono : ∀ x ∈ t.view_menus, x ∈ t'.view_menus
  pvms_ext : ∃ l, t'.pvms = t.pvms ++ l ∧
    ∀ pv ∈ l, pv.validB = true ∧
      (pv.permission = some "can_dag_read" ∨ pv.permission = some "can_dag_edit") ∧
      t.nextId ≤ pv.id ∧ pv.id < t'.nextId
  roles_eq : t'.roles = t.roles
  nextId_mono : t.nextId ≤ t'.nextId
  ids_nodup_pres : (∀ pv ∈ t.pvms, pv.id < t.nextId) →
    (t.pvms.map PermView.id).Nodup → (t'.pvms.map PermView.id).Nodup
  ids_bound_pres : (∀ pv ∈ t.pvms, pv.id < t.nextId) →
    ∀ pv ∈ t'.pvms, pv.id < t'.nextId

/-! ## Basic lemmas on the store adapter operations -/

@[simp] theorem update_role_pvms (s : Store) (n : String) (p : Finset Nat) :
    (update_role s n p).pvms = s.pvms := rfl

@[simp] theorem update_role_permissions (s : Store) (n : String) (p : Finset Nat) :
    (update_role s n p).permissions = s.permissions := rfl

@[simp] theorem update_role_view_menus (s : Store) (n : String) (p : Finset Nat) :
    (update_role s n p).view_menus = s.view_menus := rfl

@[simp] theorem update_role_nextId (s : Store) (n : String) (p : Finset Nat) :
    (update_role s n p).nextId = s.nextId := rfl

@[simp] theorem add_role_pvms (s : Store) (n : String) :
    (add_role s n).pvms = s.pvms := rfl

@[simp] theorem add_role_permissions (s : Store) (n : String) :
    (add_role s n).permissions = s.permissions := rfl

@[simp] theorem add_role_view_menus (s : Store) (n : String) :
    (add_role s n).view_menus = s.view_menus := rfl

@[simp] theorem add_role_nextId (s : Store) (n : String) :
    (add_role s n).nextId = s.nextId := rfl

theorem mem_permissions_add_permission (s : Store) (p x : String)
    (h : x ∈ s.permissions) : x ∈ (add_permission s p).permissions := by
  unfold add_permission
  split <;> simp [h]

theorem self_mem_add_permission (s : Store) (p : String) :
    p ∈ (add_permission s p).permissions := by
  unfold add_permission
  split
  · next h => simpa using h
  · simp

theorem mem_view_menus_add_view_menu (s : Store) (v x : String)
    (h : x ∈ s.view_menus) : x ∈ (add_view_menu s v).view_menus := by
  unfold add_view_menu
  split <;> simp [h]

theorem self_mem_add_view_menu (s : Store) (v : String) :
    v ∈ (add_view_menu s v).view_menus := by
  unfold add_view_menu
  split
  · next h => simpa using h
  · simp

@[simp] theorem add_permission_view_menus (s : Store) (p : String) :
    (add_permission s p).view_menus = s.view_menus := by
  unfold add_permission; split <;> rfl

@[simp] theorem add_permission_pvms (s : Store) (p : String) :
    (add_permission s p).pvms = s.pvms := by
  unfold add_permission; split <;> rfl

@[simp] theorem add_permission_roles (s : Store) (p : String) :
    (add_permission s p).roles = s.roles := by
  unfold add_permission; split <;> rfl

@[simp] theorem add_permission_nextId (s : Store) (p : String) :
    (add_permission s p).nextId = s.nextId := by
  unfold add_permission; split <;> rfl

@[simp] theorem add_view_menu_permissions (s : Store) (v : String) :
    (add_view_menu s v).permissions = s.permissions := by
  unfold add_view_menu; split <;> rfl

@[simp] theorem add_view_menu_pvms (s : Store) (v : String) :
    (add_view_menu s v).pvms = s.pvms := by
  unfold add_view_menu; split <;> rfl

@[simp] theorem add_view_menu_roles (s : Store) (v : String) :
    (add_view_menu s v).roles = s.roles := by
  unfold add_view_menu; split <;> rfl

@[simp] theorem add_view_menu_nextId (s : Store) (v : String) :
    (add_view_menu s v).nextId = s.nextId := by
  unfold add_view_menu; split <;> rfl

theorem add_pvm_permissions_mono (s : Store) (p v x : String)
    (h : x ∈ s.permissions) : x ∈ (add_permission_view_menu s p v).permissions := by
  unfold add_permission_view_menu
  simpa using mem_permissions_add_permission _ p x (by simpa using h)

theorem add_pvm_permissions_self (s : Store) (p v : String) :
    p ∈ (add_permission_view_menu s p v).permissions := by
  unfold add_permission_view_menu
  simpa using self_mem_add_permission (add_view_menu s v) p

theorem add_pvm_view_menus_mono (s : Store) (p v x : String)
    (h : x ∈ s.view_menus) : x ∈ (add_permission_view_menu s p v).view_menus := by
  unfold add_permission_view_menu
  simpa using mem_view_menus_add_view_menu s v x h

theorem add_pvm_view_menus_self (s : Store) (p v : String) :
    v ∈ (add_permission_view_menu s p v).view_menus := by
  unfold add_permission_view_menu
  simpa using self_mem_add_view_menu s v

@[simp] theorem add_pvm_pvms (s : Store) (p v : String) :
    (add_permission_view_menu s p v).pvms =
      s.pvms ++ [⟨s.nextId, some p, some v⟩] := by
  unfold add_permission_view_menu
  simp

@[simp] theorem add_pvm_roles (s : Store) (p v : String) :
    (add_permission_view_menu s p v).roles = s.roles := by
  unfold add_permission_view_menu
  simp

@[simp] theorem add_pvm_nextId (s : Store) (p v : String) :
    (add_permission_view_menu s p v).nextId = s.nextId + 1 := by
  unfold add_permission_view_menu
  simp

theorem mem_pvms_add_pvm (s : Store) (p v : String) (pv : PermView)
    (h : pv ∈ s.pvms) : pv ∈ (add_permission_view_menu s p v).pvms := by
  simp [h]

/-- Source `find_permission_view_menu` succeeds exactly when both name rows exist
and a grant row joins them. -/
theorem fpvm_isSome_iff (s : Store) (p v : String) :
    (find_permission_view_menu s p v).isSome = true ↔
      p ∈ s.permissions ∧ v ∈ s.view_menus ∧
        ∃ pv ∈ s.pvms, pv.permission = some p ∧ pv.view_menu = some v := by
  unfold find_permission_view_menu
  split
  · next hc =>
    rw [Bool.and_eq_true, List.elem_iff, List.elem_iff] at hc
    constructor
    · intro h
      rcases List.find?_isSome.mp h with ⟨pv, hpv, hmatch⟩
      simp only [Bool.and_eq_true, decide_eq_true_eq] at hmatch
      exact ⟨hc.1, hc.2, pv, hpv, hmatch⟩
    · intro ⟨_, _, pv, hpv, h1, h2⟩
      exact List.find?_isSome.mpr ⟨pv, hpv, by simp [h1, h2]⟩
  · next hc =>
    rw [Bool.and_eq_true, List.elem_iff, List.elem_iff] at hc
    rw [not_and_or] at hc
    constructor
    · intro h; cases h
    · intro ⟨h1, h2, _⟩
      rcases hc with h | h <;> [exact absurd h1 h; exact absurd h2 h]

/-! ## AddOnly: the effect shape of the grant-provisioning operations -/

theorem AddOnly.refl (t : Store) : AddOnly t t :=
  ⟨fun _ h => h, fun _ h => h, ⟨[], by simp, by simp⟩, rfl, le_refl _,
    fun _ h => h, fun h => h⟩

theorem AddOnly.trans {t1 t2 t3 : Store} (h1 : AddOnly t1 t2)
    (h2 : AddOnly t2 t3) : AddOnly t1 t3 := by
  obtain ⟨l1, hl1, hrow1⟩ := h1.pvms_ext
  obtain ⟨l2, hl2, hrow2⟩ := h2.pvms_ext
  refine ⟨fun x h => h2.perms_mono x (h1.perms_mono x h),
    fun x h => h2.vms_mono x (h1.vms_mono x h),
    ⟨l1 ++ l2, by rw [hl2, hl1, List.append_assoc], ?_⟩,
    h2.roles_eq.trans h1.roles_eq,
    le_trans h1.nextId_mono h2.nextId_mono,
    fun hb hn => h2.ids_nodup_pres (h1.ids_bound_pres hb) (h1.ids_nodup_pres hb hn),
    fun hb => h2.ids_bound_pres (h1.ids_bound_pres hb)⟩
  intro pv hpv
  rcases List.mem_append.mp hpv with hm | hm
  · obtain ⟨hv, hperm, hge, hlt⟩ := hrow1 pv hm
    exact ⟨hv, hperm, hge, lt_of_lt_of_le hlt h2.nextId_mono⟩
  · obtain ⟨hv, hperm, hge, hlt⟩ := hrow2 pv hm
    exact ⟨hv, hperm, le_trans h1.nextId_mono hge, hlt⟩

theorem addOnly_add_pvm (s : Store) (p v : String)
    (hp : p = "can_dag_read" ∨ p = "can_dag_edit") :
    AddOnly s (add_permission_view_menu s p v) := by
  refine ⟨fun x h => add_pvm_permissions_mono s p v x h,
    fun x h => add_pvm_view_menus_mono s p v x h,
    ⟨[⟨s.nextId, some p, some v⟩], by simp, ?_⟩,
    by simp, by simp, ?_, ?_⟩
  · intro pv hpv
    simp only [List.mem_singleton] at hpv
    subst hpv
    refine ⟨rfl, ?_, le_refl _, by simp⟩
    rcases hp with h | h <;> [left; right] <;> rw [h]
  · intro hb hn
    rw [add_pvm_pvms]
    rw [List.map_append, List.nodup_append]
    refine ⟨hn, by simp, ?_⟩
    intro x hx
    simp only [List.map_cons, List.map_nil, List.mem_singleton]
    intro hc
    simp only [hc] at hx
    obtain ⟨pv, hpv, hid⟩ := List.mem_map.mp hx
    have := hb pv hpv
    omega
  · intro hb pv hpv
    rw [add_pvm_pvms] at hpv
    rw [add_pvm_nextId]
    rcases List.mem_append.mp hpv with hm | hm
    · have := hb pv hm
      omega
    · simp only [List.mem_singleton] at hm
      subst hm
      simp

theorem addOnly_merge_perm (s : Store) (p v : String)
    (hp : p = "can_dag_read" ∨ p = "can_dag_edit") :
    AddOnly s (merge_perm s p v) := by
  unfold merge_perm
  dsimp only
  split
  · exact addOnly_add_pvm s p v hp
  · exact AddOnly.refl s

theorem addOnly_merge_pv (a : List (String × String)) (s : Store)
    (p v : String) (hp : p = "can_dag_read" ∨ p = "can_dag_edit") :
    AddOnly s (merge_pv a s p v) := by
  unfold merge_pv
  split
  · exact addOnly_merge_perm s p v hp
  · exact AddOnly.refl s

/-- Source `create_perm_vm_for_all_dag` written out. -/
theorem cpvfad_eq (s : Store) :
    create_perm_vm_for_all_dag s =
      merge_perm (merge_perm s "can_dag_read" "all_dags")
        "can_dag_edit" "all_dags" := rfl

theorem addOnly_cpvfad (s : Store) :
    AddOnly s (create_perm_vm_for_all_dag s) := by
  rw [cpvfad_eq]
  exact AddOnly.trans (addOnly_merge_perm _ _ _ (Or.inl rfl))
    (addOnly_merge_perm _ _ _ (Or.inr rfl))

/-- Source `provisionDagPvms` written out: snapshot, the `all_dags` pairs, then
the two dag permissions for each active non-subdag dag. -/
theorem provisionDagPvms_eq (dags : List DagModel) (s : Store) :
    provisionDagPvms dags s =
      (dags.filter (fun d => (d.is_active || d.is_paused) && !d.is_subdag)).foldl
        (fun t d => merge_pv (allPvsPairs s)
          (merge_pv (allPvsPairs s) t "can_dag_read" d.dag_id)
          "can_dag_edit" d.dag_id)
        (merge_pv (allPvsPairs s)
          (merge_pv (allPvsPairs s) s "can_dag_read" "all_dags")
          "can_dag_edit" "all_dags") := rfl

theorem addOnly_merge_pv_fold (a : List (String × String)) (l : List DagModel)
    (t : Store) :
    AddOnly t (l.foldl (fun t2 d => merge_pv a
      (merge_pv a t2 "can_dag_read" d.dag_id) "can_dag_edit" d.dag_id) t) := by
  induction l generalizing t with
  | nil => exact AddOnly.refl t
  | cons d rest ih =>
    rw [List.foldl_cons]
    exact AddOnly.trans
      (AddOnly.trans (addOnly_merge_pv a t _ d.dag_id (Or.inl rfl))
        (addOnly_merge_pv a _ _ d.dag_id (Or.inr rfl)))
      (ih _)

theorem addOnly_provision (dags : List DagModel) (s : Store) :
    AddOnly s (provisionDagPvms dags s) := by
  rw [provisionDagPvms_eq]
  exact AddOnly.trans
    (AddOnly.trans (addOnly_merge_pv _ s _ _ (Or.inl rfl))
      (addOnly_merge_pv _ _ _ _ (Or.inr rfl)))
    (addOnly_merge_pv_fold _ _ _)

/-! ## RowEstablished lemmas -/

theorem RowEstablished.mono_addOnly {t t' : Store} {p v : String}
    (h : RowEstablished t p v) (ha : AddOnly t t') : RowEstablished t' p v := by
  obtain ⟨h1, h2, pv, hpv, hm⟩ := h
  obtain ⟨l, hl, _⟩ := ha.pvms_ext
  exact ⟨ha.perms_mono p h1, ha.vms_mono v h2, pv,
    by rw [hl]; exact List.mem_append_left _ hpv, hm⟩

theorem row_est_add_pvm_self (s : Store) (p v : String) :
    RowEstablished (add_permission_view_menu s p v) p v :=
  ⟨add_pvm_permissions_self s p v, add_pvm_view_menus_self s p v,
    ⟨s.nextId, some p, some v⟩, by simp, rfl, rfl⟩

theorem merge_perm_post (s : Store) (p v : String)
    (hp : ¬(p = "")) (hv : ¬(v = "")) :
    RowEstablished (merge_perm s p v) p v := by
  unfold merge_perm
  dsimp only
  split
  · exact row_est_add_pvm_self s p v
  · next hcond =>
    have hpv : (find_permission_view_menu s p v).isSome = true := by
      cases hfound : (find_permission_view_menu s p v).isSome with
      | true => rfl
      | false =>
        exfalso
        apply hcond
        rw [hfound]
        simp [hp, hv]
    rw [fpvm_isSome_iff] at hpv
    exact hpv

theorem merge_perm_noop (s : Store) (p v : String)
    (h : RowEstablished s p v) : merge_perm s p v = s := by
  unfold merge_perm
  have hfound : (find_permission_view_menu s p v).isSome = true :=
    (fpvm_isSome_iff s p v).mpr h
  simp [hfound]

theorem merge_pv_noop (a : List (String × String)) (s : Store) (p v : String)
    (h : v = "" ∨ a.contains (v, p) = true ∨ RowEstablished s p v) :
    merge_pv a s p v = s := by
  unfold merge_pv
  split
  · next hcond =>
    rw [Bool.and_eq_true, Bool.and_eq_true] at hcond
    obtain ⟨⟨hv, hp⟩, hcon⟩ := hcond
    rcases h with h | h | h
    · rw [h] at hv
      simp at hv
    · rw [h] at hcon
      simp at hcon
    · exact merge_perm_noop s p v h
  · rfl

theorem cpvfad_post (s : Store) :
    RowEstablished (create_perm_vm_for_all_dag s) "can_dag_read" "all_dags" ∧
    RowEstablished (create_perm_vm_for_all_dag s) "can_dag_edit" "all_dags" := by
  rw [cpvfad_eq]
  constructor
  · exact (merge_perm_post s _ _ (by decide) (by decide)).mono_addOnly
      (addOnly_merge_perm _ _ _ (Or.inr rfl))
  · exact merge_perm_post _ _ _ (by decide) (by decide)

theorem cpvfad_noop (s : Store)
    (h1 : RowEstablished s "can_dag_read" "all_dags")
    (h2 : RowEstablished s "can_dag_edit" "all_dags") :
    create_perm_vm_for_all_dag s = s := by
  rw [cpvfad_eq, merge_perm_noop s _ _ h1, merge_perm_noop s _ _ h2]

/-! ## `clean_perms` field lemmas -/

theorem clean_perms_pvms (s : Store) :
    ((clean_perms s).1).pvms = s.pvms.filter PermView.validB := rfl

theorem clean_perms_permissions (s : Store) :
    ((clean_perms s).1).permissions = s.permissions := rfl

theorem clean_perms_view_menus (s : Store) :
    ((clean_perms s).1).view_menus = s.view_menus := rfl

theorem clean_perms_roles (s : Store) :
    ((clean_perms s).1).roles = s.roles := rfl

theorem clean_perms_nextId (s : Store) :
    ((clean_perms s).1).nextId = s.nextId := rfl

theorem row_est_clean (s : Store) (p v : String)
    (h : RowEstablished s p v) : RowEstablished (clean_perms s).1 p v := by
  obtain ⟨h1, h2, pv, hpv, hm1, hm2⟩ := h
  refine ⟨h1, h2, pv, ?_, hm1, hm2⟩
  rw [clean_perms_pvms, List.mem_filter]
  exact ⟨hpv, by unfold PermView.validB; rw [hm1, hm2]; rfl⟩

/-- Membership in the `all_pvs` snapshot. -/
theorem mem_allPvsPairs (t : Store) (p v : String) :
    (p, v) ∈ allPvsPairs t ↔
      ∃ pv ∈ t.pvms, pv.permission = some p ∧ pv.view_menu = some v := by
  unfold allPvsPairs
  rw [List.mem_filterMap]
  constructor
  · intro ⟨pv, hpv, hm⟩
    refine ⟨pv, hpv, ?_⟩
    cases hp : pv.permission <;> cases hv : pv.view_menu <;>
      rw [hp, hv] at hm <;> simp only [Option.some.injEq] at hm ⊢
    · cases hm
    · cases hm
    · cases hm
    · obtain ⟨ha, hb⟩ := Prod.mk.injEq _ _ _ _ ▸ hm
      exact ⟨by rw [ha], by rw [hb]⟩
  · intro ⟨pv, hpv, hm1, hm2⟩
    refine ⟨pv, hpv, ?_⟩
    rw [hm1, hm2]

/-! ## Lemmas on `find_role`, `update_role`, `init_role` -/

theorem find_role_some_name (s : Store) (n : String) (r : Role)
    (h : find_role s n = some r) : r.name = n := by
  unfold find_role at h
  have := List.find?_some h
  simpa using this

theorem find_role_mem (s : Store) (n : String) (r : Role)
    (h : find_role s n = some r) : r ∈ s.roles := by
  unfold find_role at h
  exact List.mem_of_find?_eq_some h

theorem find_role_add_role_of_found (s : Store) (n n' : String) (r : Role)
    (h : find_role s n = some r) : find_role (add_role s n') n = some r := by
  unfold find_role at h
  unfold find_role add_role
  simp only [List.find?_append, h, Option.or_some]

theorem find_role_add_role_self (s : Store) (n : String)
    (h : find_role s n = none) : find_role (add_role s n) n = some ⟨n, ∅⟩ := by
  unfold find_role at h
  unfold find_role add_role
  simp only [List.find?_append, h, Option.none_or]
  simp [List.find?]

theorem find?_map_of_name_preserving (l : List Role) (f : Role → Role)
    (hf : ∀ r, (f r).name = r.name) (n : String) :
    (l.map f).find? (fun r => r.name = n) =
      (l.find? (fun r => r.name = n)).map f := by
  induction l with
  | nil => rfl
  | cons a t ih =>
    by_cases h : a.name = n
    · rw [List.map_cons, List.find?_cons_of_pos, List.find?_cons_of_pos] <;>
        simp [hf, h]
    · rw [List.map_cons, List.find?_cons_of_neg, List.find?_cons_of_neg]
      · exact ih
      · simp [h]
      · simp [hf, h]

theorem find_role_update_role (s : Store) (c n : String) (p : Finset Nat) :
    find_role (update_role s c p) n =
      (find_role s n).map (fun r =>
        if r.name = c then { r with permissions := p } else r) := by
  unfold find_role update_role
  exact find?_map_of_name_preserving s.roles _ (fun r => by split <;> rfl) n

theorem rolePvms_empty (s : Store) (n : String) :
    rolePvms s ⟨n, ∅⟩ = [] := by
  unfold rolePvms
  simp

theorem rolePvms_congr (s t : Store) (r : Role) (h : t.pvms = s.pvms) :
    rolePvms t r = rolePvms s r := by
  unfold rolePvms
  rw [h]

theorem init_role_pvms (s : Store) (n : String) (a b : List String) :
    (init_role s n a b).pvms = s.pvms := by
  unfold init_role
  dsimp only
  cases h : find_role s n <;> simp only [h] <;> split <;>
    try split
  all_goals simp [update_role, add_role]

theorem init_role_permissions (s : Store) (n : String) (a b : List String) :
    (init_role s n a b).permissions = s.permissions := by
  unfold init_role
  dsimp only
  cases h : find_role s n <;> simp only [h] <;> split <;>
    try split
  all_goals simp [update_role, add_role]

theorem init_role_view_menus (s : Store) (n : String) (a b : List String) :
    (init_role s n a b).view_menus = s.view_menus := by
  unfold init_role
  dsimp only
  cases h : find_role s n <;> simp only [h] <;> split <;>
    try split
  all_goals simp [update_role, add_role]

theorem init_role_nextId (s : Store) (n : String) (a b : List String) :
    (init_role s n a b).nextId = s.nextId := by
  unfold init_role
  dsimp only
  cases h : find_role s n <;> simp only [h] <;> split <;>
    try split
  all_goals simp [update_role, add_role]

/-- Source `seedIds` only depends on the grant rows. -/
theorem seedIds_congr (s t : Store) (a b : List String) (h : t.pvms = s.pvms) :
    seedIds t a b = seedIds s a b := by
  unfold seedIds seedIdsList
  rw [h]

/-! ## Inversion and helper lemmas for the reconciliation pipeline -/

theorem map_eq_self_of_fixed {α : Type} (l : List α) (f : α → α)
    (h : ∀ x ∈ l, f x = x) : l.map f = l := by
  conv_rhs => rw [show l = l.map id from (List.map_id l).symm]
  exact List.map_congr_left h

/-- Source `sync_roles` succeeds exactly through the five-stage pipeline. -/
theorem sync_roles_eq (dags : List DagModel) (s s' : Store)
    (h : sync_roles dags s = some s') :
    ∃ s3 s4,
      propagateUserPerms (provisionDagPvms dags
        (seedRoles (create_perm_vm_for_all_dag s))) = some s3 ∧
      update_admin_perm_view s3 = some s4 ∧ s' = (clean_perms s4).1 := by
  unfold sync_roles create_custom_dag_permission_view at h
  dsimp only at h
  split at h
  · cases h
  · next s3 h3 =>
    split at h
    · cases h
    · next s4 h4 =>
      simp only [Option.some.injEq] at h
      exact ⟨s3, s4, h3, h4, h.symm⟩

/-- Inversion of `propagateUserPerms`. -/
theorem propagate_eq (s s1 : Store) (h : propagateUserPerms s = some s1) :
    ∃ u, find_role s "User" = some u ∧
      s.view_menus.contains "all_dags" = true ∧
      s1 = { s with roles := s.roles.map (fun r =>
        if EXISTING_ROLES.contains r.name then r
        else { r with permissions :=
          r.permissions ∪ (refIds s u \ r.permissions) }) } := by
  unfold propagateUserPerms at h
  cases hu : find_role s "User" with
  | none => rw [hu] at h; cases h
  | some u =>
    rw [hu] at h
    dsimp only at h
    by_cases hvm : s.view_menus.contains "all_dags" = true
    · rw [if_pos hvm] at h
      simp only [Option.some.injEq] at h
      exact ⟨u, rfl, hvm, h.symm⟩
    · rw [if_neg hvm] at h
      cases h

/-- Inversion of `update_admin_perm_view`. -/
theorem update_admin_eq (s s1 : Store) (h : update_admin_perm_view s = some s1) :
    ∃ admin, find_role s "Admin" = some admin ∧
      s1 = update_role s "Admin"
        ((admin.permissions.filter (fun i => s.pvms.any (fun pv => pv.id == i)))
          ∪ validIds s) := by
  unfold update_admin_perm_view at h
  cases ha : find_role s "Admin" with
  | none => rw [ha] at h; cases h
  | some admin =>
    rw [ha] at h
    simp only [Option.some.injEq] at h
    exact ⟨admin, rfl, h.symm⟩

theorem find_role_eq_of_roles_eq (s t : Store) (hroles : t.roles = s.roles)
    (n : String) : find_role t n = find_role s n := by
  unfold find_role
  rw [hroles]

theorem find_role_eq_of_roles_map (s t : Store) (f : Role → Role)
    (hroles : t.roles = s.roles.map f) (hf : ∀ r, (f r).name = r.name)
    (n : String) : find_role t n = (find_role s n).map f := by
  unfold find_role
  rw [hroles]
  exact find?_map_of_name_preserving s.roles f hf n

/-- With distinct role names, any role member named `n` is the one
`find_role` returns. -/
theorem role_unique (s : Store) (hnd : (s.roles.map Role.name).Nodup)
    (n : String) (r : Role) (hfind : find_role s n = some r)
    (r' : Role) (hmem : r' ∈ s.roles) (hname : r'.name = n) : r' = r := by
  have hrmem : r ∈ s.roles := find_role_mem s n r hfind
  have hrname : r.name = n := find_role_some_name s n r hfind
  exact List.inj_on_of_nodup_map hnd hmem hrmem (by rw [hname, hrname])

/-- Source `update_role` with the value the named role already carries is the
identity (distinct role names). -/
theorem update_role_self (s : Store) (n : String) (p : Finset Nat)
    (hnd : (s.roles.map Role.name).Nodup) (r : Role)
    (hfind : find_role s n = some r) (hperm : r.permissions = p) :
    update_role s n p = s := by
  unfold update_role
  have hmap : s.roles.map (fun r' =>
      if r'.name = n then { r' with permissions := p } else r') = s.roles := by
    apply map_eq_self_of_fixed
    intro r' hmem
    split
    · next hname =>
      have : r' = r := role_unique s hnd n r hfind r' hmem hname
      subst this
      rw [← hperm]
    · rfl
  rw [hmap]

/-- Membership in a role's grant pairs. -/
theorem mem_rolePairs (s : Store) (r : Role) (p v : String) :
    (p, v) ∈ rolePairs s r ↔
      ∃ pv ∈ s.pvms, pv.id ∈ r.permissions ∧
        pv.permission = some p ∧ pv.view_menu = some v := by
  unfold rolePairs rolePvms
  rw [List.mem_toFinset, List.mem_filterMap]
  constructor
  · intro ⟨pv, hpv, hm⟩
    rw [List.mem_filter, decide_eq_true_eq] at hpv
    refine ⟨pv, hpv.1, hpv.2, ?_⟩
    cases hp : pv.permission <;> cases hv : pv.view_menu <;>
      rw [hp, hv] at hm <;> simp only [Option.some.injEq] at hm ⊢
    · cases hm
    · cases hm
    · cases hm
    · obtain ⟨ha, hb⟩ := Prod.mk.injEq _ _ _ _ ▸ hm
      exact ⟨by rw [ha], by rw [hb]⟩
  · intro ⟨pv, hpv, hid, hm1, hm2⟩
    refine ⟨pv, ?_, ?_⟩
    · rw [List.mem_filter, decide_eq_true_eq]
      exact ⟨hpv, hid⟩
    · rw [hm1, hm2]

/-- Membership in `refIds`. -/
theorem mem_refIds (s : Store) (u : Role) (i : Nat) :
    i ∈ refIds s u ↔ i ∈ u.permissions ∧
      ∃ pv ∈ s.pvms, pv.id = i ∧ pv.view_menu.isSome = true ∧
        pv.view_menu ≠ some "all_dags" := by
  unfold refIds
  rw [Finset.mem_filter]
  constructor
  · intro ⟨hi, hany⟩
    refine ⟨hi, ?_⟩
    rw [List.any_eq_true] at hany
    obtain ⟨pv, hpv, hcond⟩ := hany
    rw [Bool.and_eq_true, Bool.and_eq_true] at hcond
    obtain ⟨⟨h1, h2⟩, h3⟩ := hcond
    refine ⟨pv, hpv, by simpa using h1, h2, ?_⟩
    intro hc
    rw [hc] at h3
    simp at h3
  · intro ⟨hi, pv, hpv, h1, h2, h3⟩
    refine ⟨hi, ?_⟩
    rw [List.any_eq_true]
    refine ⟨pv, hpv, ?_⟩
    rw [Bool.and_eq_true, Bool.and_eq_true]
    refine ⟨⟨by simpa using h1, h2⟩, ?_⟩
    simpa using h3

/-! ## Preservation of well-formedness and attached-row validity -/

theorem WF_addOnly (t t' : Store) (ha : AddOnly t t') (hwf : WF t) : WF t' := by
  obtain ⟨hnd, hb, hrn, hrb⟩ := hwf
  refine ⟨ha.ids_nodup_pres hb hnd, ha.ids_bound_pres hb, ?_, ?_⟩
  · rw [ha.roles_eq]
    exact hrn
  · intro r hr i hi
    rw [ha.roles_eq] at hr
    exact lt_of_lt_of_le (hrb r hr i hi) ha.nextId_mono

theorem NOA_addOnly (t t' : Store) (ha : AddOnly t t')
    (hn : NoOrphanAttached t) : NoOrphanAttached t' := by
  intro r hr i hi pv hpv hid
  rw [ha.roles_eq] at hr
  obtain ⟨l, hl, hrow⟩ := ha.pvms_ext
  rw [hl] at hpv
  rcases List.mem_append.mp hpv with hm | hm
  · exact hn r hr i hi pv hm hid
  · exact (hrow pv hm).1

theorem WF_roles_map (t : Store) (f : Role → Role)
    (hfname : ∀ r, (f r).name = r.name)
    (hfids : ∀ r ∈ t.roles, ∀ i ∈ (f r).permissions, i < t.nextId)
    (hwf : WF t) : WF { t with roles := t.roles.map f } := by
  obtain ⟨hnd, hb, hrn, _⟩ := hwf
  refine ⟨hnd, hb, ?_, ?_⟩
  · show ((t.roles.map f).map Role.name).Nodup
    rw [List.map_map]
    have : t.roles.map (Role.name ∘ f) = t.roles.map Role.name :=
      List.map_congr_left (fun r _ => hfname r)
    rw [this]
    exact hrn
  · intro r hr i hi
    simp only [List.mem_map] at hr
    obtain ⟨r0, hr0, hr0eq⟩ := hr
    exact hfids r0 hr0 i (hr0eq ▸ hi)

theorem NOA_roles_map (t : Store) (f : Role → Role)
    (hfvalid : ∀ r ∈ t.roles, ∀ i ∈ (f r).permissions,
      ∀ row ∈ t.pvms, row.id = i → row.validB = true) :
    NoOrphanAttached { t with roles := t.roles.map f } := by
  intro r hr i hi pv hpv hid
  simp only [List.mem_map] at hr
  obtain ⟨r0, hr0, hr0eq⟩ := hr
  exact hfvalid r0 hr0 i (hr0eq ▸ hi) pv hpv hid

theorem seedIds_bounded (t : Store) (vms perms : List String)
    (hb : ∀ pv ∈ t.pvms, pv.id < t.nextId) :
    ∀ i ∈ seedIds t vms perms, i < t.nextId := by
  intro i hi
  unfold seedIds seedIdsList at hi
  simp only [List.mem_toFinset, List.mem_map, List.mem_filter] at hi
  obtain ⟨pv, ⟨hpv, _⟩, hid⟩ := hi
  exact hid ▸ hb pv hpv

theorem seedIds_rows_valid (t : Store) (vms perms : List String)
    (hnd : (t.pvms.map PermView.id).Nodup) :
    ∀ i ∈ seedIds t vms perms, ∀ row ∈ t.pvms, row.id = i →
      row.validB = true := by
  intro i hi row hrow hid
  unfold seedIds seedIdsList at hi
  simp only [List.mem_toFinset, List.mem_map, List.mem_filter] at hi
  obtain ⟨pv, ⟨hpv, hm⟩, hpvid⟩ := hi
  have : row = pv := List.inj_on_of_nodup_map hnd hrow hpv (by rw [hid, hpvid])
  subst this
  unfold PermView.validB
  unfold seedMatch at hm
  cases hp : row.permission <;> cases hv : row.view_menu <;>
    rw [hp, hv] at hm <;> simp at hm ⊢

theorem WF_init_role (t : Store) (n : String) (vms perms : List String)
    (hwf : WF t) : WF (init_role t n vms perms) := by
  have hbound := hwf.2.1
  unfold init_role
  dsimp only
  cases h : find_role t n with
  | some r =>
    simp only [h]
    split
    · unfold update_role
      apply WF_roles_map t _ (fun r => by split <;> rfl) _ hwf
      intro r0 hr0 i hi
      split at hi
      · exact seedIds_bounded t vms perms hbound i hi
      · exact hwf.2.2.2 r0 hr0 i hi
    · exact hwf
  | none =>
    simp only [h]
    have hwfadd : WF (add_role t n) := by
      obtain ⟨hnd, hb, hrn, hrb⟩ := hwf
      refine ⟨hnd, hb, ?_, ?_⟩
      · show ((t.roles ++ [(⟨n, ∅⟩ : Role)]).map Role.name).Nodup
        rw [List.map_append, List.nodup_append]
        refine ⟨hrn, by simp, ?_⟩
        intro x hx
        simp only [List.map_cons, List.map_nil, List.mem_singleton]
        intro hc
        obtain ⟨r0, hr0, hr0name⟩ := List.mem_map.mp hx
        have hfind : find_role t n ≠ none := by
          unfold find_role
          intro hc2
          have := List.find?_eq_none.mp hc2 r0 hr0
          rw [hr0name, hc] at this
          simp at this
        exact hfind h
      · intro r hr i hi
        rcases List.mem_append.mp hr with hm | hm
        · exact hrb r hm i hi
        · simp only [List.mem_singleton] at hm
          subst hm
          cases hi
    split
    · exact hwfadd
    · split
      · unfold update_role
        apply WF_roles_map _ _ (fun r => by split <;> rfl) _ hwfadd
        intro r0 hr0 i hi
        split at hi
        · exact seedIds_bounded _ vms perms hwfadd.2.1 i hi
        · exact hwfadd.2.2.2 r0 hr0 i hi
      · exact hwfadd

theorem NOA_init_role (t : Store) (n : String) (vms perms : List String)
    (hwf : WF t) (hn : NoOrphanAttached t) :
    NoOrphanAttached (init_role t n vms perms) := by
  have hnadd : NoOrphanAttached (add_role t n) := by
    intro r hr i hi pv hpv hid
    rcases List.mem_append.mp hr with hm | hm
    · exact hn r hm i hi pv hpv hid
    · simp only [List.mem_singleton] at hm
      subst hm
      cases hi
  unfold init_role
  dsimp only
  cases h : find_role t n with
  | some r =>
    simp only [h]
    split
    · unfold update_role
      apply NOA_roles_map
      intro r0 hr0 i hi pv hpv hid
      split at hi
      · exact seedIds_rows_valid t vms perms hwf.1 i hi pv hpv hid
      · exact hn r0 hr0 i hi pv hpv hid
    · exact hn
  | none =>
    simp only [h]
    split
    · exact hnadd
    · split
      · unfold update_role
        apply NOA_roles_map
        intro r0 hr0 i hi pv hpv hid
        split at hi
        · exact seedIds_rows_valid (add_role t n) vms perms hwf.1 i hi pv hpv hid
        · exact hnadd r0 hr0 i hi pv hpv hid
      · exact hnadd

theorem WF_seedRoles (t : Store) (hwf : WF t) : WF (seedRoles t) := by
  unfold seedRoles ROLE_CONFIGS
  simp only [List.foldl_cons, List.foldl_nil]
  exact WF_init_role _ _ _ _ (WF_init_role _ _ _ _ (WF_init_role _ _ _ _ hwf))

theorem NOA_seedRoles (t : Store) (hwf : WF t) (hn : NoOrphanAttached t) :
    NoOrphanAttached (seedRoles t) := by
  unfold seedRoles ROLE_CONFIGS
  simp only [List.foldl_cons, List.foldl_nil]
  exact NOA_init_role _ _ _ _
    (WF_init_role _ _ _ _ (WF_init_role _ _ _ _ hwf))
    (NOA_init_role _ _ _ _ (WF_init_role _ _ _ _ hwf)
      (NOA_init_role _ _ _ _ hwf hn))

theorem WF_propagate (t t' : Store) (h : propagateUserPerms t = some t')
    (hwf : WF t) : WF t' := by
  obtain ⟨u, hu, _, ht'⟩ := propagate_eq t t' h
  subst ht'
  apply WF_roles_map t _ (fun r => by split <;> rfl) _ hwf
  intro r0 hr0 i hi
  split at hi
  · exact hwf.2.2.2 r0 hr0 i hi
  · simp only at hi
    rcases Finset.mem_union.mp hi with hm | hm
    · exact hwf.2.2.2 r0 hr0 i hm
    · have : i ∈ refIds t u := Finset.mem_sdiff.mp hm |>.1
      have hiu : i ∈ u.permissions := (Finset.mem_filter.mp this).1
      exact hwf.2.2.2 u (find_role_mem t "User" u hu) i hiu

theorem NOA_propagate (t t' : Store) (h : propagateUserPerms t = some t')
    (hn : NoOrphanAttached t) : NoOrphanAttached t' := by
  obtain ⟨u, hu, _, ht'⟩ := propagate_eq t t' h
  subst ht'
  apply NOA_roles_map
  intro r0 hr0 i hi pv hpv hid
  split at hi
  · exact hn r0 hr0 i hi pv hpv hid
  · simp only at hi
    rcases Finset.mem_union.mp hi with hm | hm
    · exact hn r0 hr0 i hm pv hpv hid
    · have : i ∈ refIds t u := Finset.mem_sdiff.mp hm |>.1
      have hiu : i ∈ u.permissions := (Finset.mem_filter.mp this).1
      exact hn u (find_role_mem t "User" u hu) i hiu pv hpv hid

theorem mem_validIds_exists (t : Store) (i : Nat) :
    i ∈ validIds t ↔ ∃ pv ∈ t.pvms, pv.validB = true ∧ pv.id = i := by
  unfold validIds validPvms
  simp only [List.mem_toFinset, List.mem_map, List.mem_filter]
  constructor
  · intro ⟨pv, ⟨hpv, hval⟩, hid⟩
    exact ⟨pv, hpv, hval, hid⟩
  · intro ⟨pv, hpv, hval, hid⟩
    exact ⟨pv, ⟨hpv, hval⟩, hid⟩

theorem WF_update_admin (t t' : Store) (h : update_admin_perm_view t = some t')
    (hwf : WF t) : WF t' := by
  obtain ⟨admin, ha, ht'⟩ := update_admin_eq t t' h
  subst ht'
  unfold update_role
  apply WF_roles_map t _ (fun r => by split <;> rfl) _ hwf
  intro r0 hr0 i hi
  split at hi
  · simp only at hi
    rcases Finset.mem_union.mp hi with hm | hm
    · exact hwf.2.2.2 admin (find_role_mem t "Admin" admin ha) i
        (Finset.mem_filter.mp hm).1
    · obtain ⟨pv, hpv, _, hid⟩ := (mem_validIds_exists t i).mp hm
      exact hid ▸ hwf.2.1 pv hpv
  · exact hwf.2.2.2 r0 hr0 i hi

theorem NOA_update_admin (t t' : Store) (h : update_admin_perm_view t = some t')
    (hwf : WF t) (hn : NoOrphanAttached t) : NoOrphanAttached t' := by
  obtain ⟨admin, ha, ht'⟩ := update_admin_eq t t' h
  subst ht'
  unfold update_role
  apply NOA_roles_map
  intro r0 hr0 i hi pv hpv hid
  split at hi
  · simp only at hi
    rcases Finset.mem_union.mp hi with hm | hm
    · exact hn admin (find_role_mem t "Admin" admin ha) i
        (Finset.mem_filter.mp hm).1 pv hpv hid
    · obtain ⟨pv', hpv', hval', hid'⟩ := (mem_validIds_exists t i).mp hm
      have : pv = pv' := List.inj_on_of_nodup_map hwf.1 hpv hpv'
        (by rw [hid, hid'])
      subst this
      exact hval'
  · exact hn r0 hr0 i hi pv hpv hid

theorem WF_clean (t : Store) (hwf : WF t) : WF (clean_perms t).1 := by
  obtain ⟨hnd, hb, hrn, hrb⟩ := hwf
  refine ⟨?_, ?_, hrn, hrb⟩
  · rw [clean_perms_pvms]
    exact List.Nodup.sublist (List.Sublist.map _ (List.filter_sublist t.pvms)) hnd
  · intro pv hpv
    rw [clean_perms_pvms, List.mem_filter] at hpv
    exact hb pv hpv.1

theorem NOA_clean (t : Store) (hn : NoOrphanAttached t) :
    NoOrphanAttached (clean_perms t).1 := by
  intro r hr i hi pv hpv hid
  rw [clean_perms_pvms, List.mem_filter] at hpv
  exact hn r hr i hi pv hpv.1 hid

/-! ## No-op characterisations of the reconciliation passes -/

theorem seedRoles_pvms (t : Store) : (seedRoles t).pvms = t.pvms := by
  unfold seedRoles ROLE_CONFIGS
  simp only [List.foldl_cons, List.foldl_nil]
  rw [init_role_pvms, init_role_pvms, init_role_pvms]

theorem seedRoles_permissions (t : Store) :
    (seedRoles t).permissions = t.permissions := by
  unfold seedRoles ROLE_CONFIGS
  simp only [List.foldl_cons, List.foldl_nil]
  rw [init_role_permissions, init_role_permissions, init_role_permissions]

theorem seedRoles_view_menus (t : Store) :
    (seedRoles t).view_menus = t.view_menus := by
  unfold seedRoles ROLE_CONFIGS
  simp only [List.foldl_cons, List.foldl_nil]
  rw [init_role_view_menus, init_role_view_menus, init_role_view_menus]

theorem seedRoles_nextId (t : Store) : (seedRoles t).nextId = t.nextId := by
  unfold seedRoles ROLE_CONFIGS
  simp only [List.foldl_cons, List.foldl_nil]
  rw [init_role_nextId, init_role_nextId, init_role_nextId]

theorem RowEstablished_of_fields (t t' : Store) (p v : String)
    (hp : t'.permissions = t.permissions) (hv : t'.view_menus = t.view_menus)
    (hpvms : t'.pvms = t.pvms) (h : RowEstablished t p v) :
    RowEstablished t' p v := by
  obtain ⟨h1, h2, pv0, hpv0, hm⟩ := h
  exact ⟨hp ▸ h1, hv ▸ h2, pv0, hpvms ▸ hpv0, hm⟩

theorem rolePvms_eq_nil_of_empty (t : Store) (r : Role)
    (hperm : r.permissions = ∅) : rolePvms t r = [] := by
  unfold rolePvms
  rw [List.filter_eq_nil_iff]
  intro pv _
  rw [hperm]
  simp

theorem init_role_noop_nonempty (t : Store) (n : String)
    (vms perms : List String) (r : Role) (hfind : find_role t n = some r)
    (hlen : (rolePvms t r).length ≠ 0) : init_role t n vms perms = t := by
  unfold init_role
  dsimp only
  simp only [hfind]
  simp [hlen]

theorem init_role_noop (t : Store) (n : String) (vms perms : List String)
    (hnd : (t.roles.map Role.name).Nodup)
    (hcond : ∃ r, find_role t n = some r ∧
      ((rolePvms t r).length ≠ 0 ∨
        (r.permissions = ∅ ∧ seedIds t vms perms = ∅))) :
    init_role t n vms perms = t := by
  obtain ⟨r, hfind, hcase⟩ := hcond
  rcases hcase with hlen | ⟨hperm, hseed⟩
  · exact init_role_noop_nonempty t n vms perms r hfind hlen
  · unfold init_role
    dsimp only
    simp only [hfind]
    have hlen0 : (rolePvms t r).length = 0 := by
      rw [rolePvms_eq_nil_of_empty t r hperm]
      rfl
    simp only [hlen0, if_true]
    exact update_role_self t n _ hnd r hfind (by rw [hperm, hseed])

theorem seedRoles_noop (t : Store) (hnd : (t.roles.map Role.name).Nodup)
    (hV : ∃ r, find_role t "Viewer" = some r ∧
      ((rolePvms t r).length ≠ 0 ∨ (r.permissions = ∅ ∧
        seedIds t (VIEWER_VMS ++ DAG_VMS) VIEWER_PERMS = ∅)))
    (hU : ∃ r, find_role t "User" = some r ∧
      ((rolePvms t r).length ≠ 0 ∨ (r.permissions = ∅ ∧
        seedIds t (VIEWER_VMS ++ DAG_VMS ++ USER_VMS)
          (VIEWER_PERMS ++ USER_PERMS ++ DAG_PERMS) = ∅)))
    (hO : ∃ r, find_role t "Op" = some r ∧
      ((rolePvms t r).length ≠ 0 ∨ (r.permissions = ∅ ∧
        seedIds t (VIEWER_VMS ++ DAG_VMS ++ USER_VMS ++ OP_VMS)
          (VIEWER_PERMS ++ USER_PERMS ++ OP_PERMS ++ DAG_PERMS) = ∅))) :
    seedRoles t = t := by
  unfold seedRoles ROLE_CONFIGS
  simp only [List.foldl_cons, List.foldl_nil]
  rw [init_role_noop t "Viewer" _ _ hnd hV, init_role_noop t "User" _ _ hnd hU,
    init_role_noop t "Op" _ _ hnd hO]

theorem merge_pv_eq_merge_perm (a : List (String × String)) (t : Store)
    (p v : String) (hv : ¬(v = "")) (hp : ¬(p = ""))
    (hcon : a.contains (v, p) = false) :
    merge_pv a t p v = merge_perm t p v := by
  unfold merge_pv
  rw [if_pos]
  simp only [Bool.and_eq_true, Bool.not_eq_true', decide_eq_false_iff_not]
  exact ⟨⟨hv, hp⟩, hcon⟩

theorem merge_pv_fold_noop (a : List (String × String)) (l : List DagModel)
    (t : Store)
    (hsteps : ∀ d ∈ l, merge_pv a (merge_pv a t "can_dag_read" d.dag_id)
      "can_dag_edit" d.dag_id = t) :
    l.foldl (fun t2 d => merge_pv a (merge_pv a t2 "can_dag_read" d.dag_id)
      "can_dag_edit" d.dag_id) t = t := by
  induction l with
  | nil => rfl
  | cons d rest ih =>
    rw [List.foldl_cons, hsteps d (List.mem_cons_self d rest)]
    exact ih (fun d2 hd2 => hsteps d2 (List.mem_cons_of_mem d hd2))

theorem provision_noop (dags : List DagModel) (t : Store)
    (h1 : RowEstablished t "can_dag_read" "all_dags")
    (h2 : RowEstablished t "can_dag_edit" "all_dags")
    (hpairs : ∀ d ∈ dags.filter
        (fun d => (d.is_active || d.is_paused) && !d.is_subdag),
      ∀ perm, perm = "can_dag_read" ∨ perm = "can_dag_edit" →
        d.dag_id = "" ∨ (d.dag_id, perm) ∈ allPvsPairs t ∨
          RowEstablished t perm d.dag_id) :
    provisionDagPvms dags t = t := by
  rw [provisionDagPvms_eq]
  have hbase1 : merge_pv (allPvsPairs t) t "can_dag_read" "all_dags" = t :=
    merge_pv_noop _ t _ _ (Or.inr (Or.inr h1))
  have hbase2 : merge_pv (allPvsPairs t) t "can_dag_edit" "all_dags" = t :=
    merge_pv_noop _ t _ _ (Or.inr (Or.inr h2))
  rw [hbase1, hbase2]
  apply merge_pv_fold_noop
  intro d hd
  have hconv : ∀ perm, perm = "can_dag_read" ∨ perm = "can_dag_edit" →
      merge_pv (allPvsPairs t) t perm d.dag_id = t := by
    intro perm hperm
    rcases hpairs d hd perm hperm with hc | hc | hc
    · exact merge_pv_noop _ t _ _ (Or.inl hc)
    · refine merge_pv_noop _ t _ _ (Or.inr (Or.inl ?_))
      exact List.elem_iff.mpr hc
    · exact merge_pv_noop _ t _ _ (Or.inr (Or.inr hc))
  rw [hconv "can_dag_read" (Or.inl rfl), hconv "can_dag_edit" (Or.inr rfl)]

theorem propagate_noop (t : Store) (u : Role)
    (hu : find_role t "User" = some u)
    (hvm : t.view_menus.contains "all_dags" = true)
    (hsub : ∀ r ∈ t.roles, ¬(EXISTING_ROLES.contains r.name = true) →
      refIds t u ⊆ r.permissions) :
    propagateUserPerms t = some t := by
  unfold propagateUserPerms
  rw [hu]
  dsimp only
  rw [if_pos hvm]
  have hmap : t.roles.map (fun r =>
      if EXISTING_ROLES.contains r.name then r
      else { r with permissions :=
        r.permissions ∪ (refIds t u \ r.permissions) }) = t.roles := by
    apply map_eq_self_of_fixed
    intro r hr
    split
    · rfl
    · next hdyn =>
      have : refIds t u \ r.permissions = ∅ :=
        Finset.sdiff_eq_empty_iff_subset.mpr (hsub r hr hdyn)
      rw [this, Finset.union_empty]
  rw [hmap]

theorem update_admin_noop (t : Store) (a : Role)
    (hnd : (t.roles.map Role.name).Nodup)
    (ha : find_role t "Admin" = some a)
    (hrows : ∀ i ∈ a.permissions, t.pvms.any (fun pv => pv.id == i) = true)
    (hvalid : validIds t ⊆ a.permissions) :
    update_admin_perm_view t = some t := by
  unfold update_admin_perm_view
  rw [ha]
  dsimp only
  have hval : (a.permissions.filter (fun i => t.pvms.any (fun pv => pv.id == i)))
      ∪ validIds t = a.permissions := by
    rw [Finset.filter_true_of_mem hrows]
    exact Finset.union_eq_left.mpr hvalid
  rw [hval, update_role_self t "Admin" a.permissions hnd a ha rfl]

theorem clean_noop (t : Store) (hvalid : ∀ pv ∈ t.pvms, pv.validB = true) :
    (clean_perms t).1 = t := by
  unfold clean_perms
  dsimp only
  rw [List.filter_eq_self.mpr hvalid]

/-! ## Run-one establishment of the per-dag grant pairs -/

theorem merge_pv_fold_pairs (a : List (String × String)) (l : List DagModel)
    (t0 : Store) :
    ∀ d ∈ l, ∀ perm, perm = "can_dag_read" ∨ perm = "can_dag_edit" →
      d.dag_id = "" ∨ (d.dag_id, perm) ∈ a ∨
        RowEstablished (l.foldl (fun t2 d2 => merge_pv a
          (merge_pv a t2 "can_dag_read" d2.dag_id) "can_dag_edit" d2.dag_id) t0)
          perm d.dag_id := by
  induction l generalizing t0 with
  | nil =>
    intro d hd
    cases hd
  | cons d0 rest ih =>
    intro d hd perm hperm
    rw [List.foldl_cons]
    rcases List.mem_cons.mp hd with rfl | hdrest
    · by_cases hid : d.dag_id = ""
      · exact Or.inl hid
      by_cases hcon : (d.dag_id, perm) ∈ a
      · exact Or.inr (Or.inl hcon)
      refine Or.inr (Or.inr ?_)
      have hstep : RowEstablished (merge_pv a
          (merge_pv a t0 "can_dag_read" d.dag_id) "can_dag_edit" d.dag_id)
          perm d.dag_id := by
        rcases hperm with rfl | rfl
        · have hconF : a.contains (d.dag_id, "can_dag_read") = false := by
            rw [← Bool.not_eq_true]
            intro hc
            exact hcon (List.elem_iff.mp hc)
          rw [merge_pv_eq_merge_perm a t0 "can_dag_read" d.dag_id hid
            (by decide) hconF]
          exact (merge_perm_post t0 "can_dag_read" d.dag_id (by decide)
            hid).mono_addOnly (addOnly_merge_pv a _ _ _ (Or.inr rfl))
        · have hconF : a.contains (d.dag_id, "can_dag_edit") = false := by
            rw [← Bool.not_eq_true]
            intro hc
            exact hcon (List.elem_iff.mp hc)
          rw [merge_pv_eq_merge_perm a _ "can_dag_edit" d.dag_id hid
            (by decide) hconF]
          exact merge_perm_post _ "can_dag_edit" d.dag_id (by decide) hid
      exact hstep.mono_addOnly (addOnly_merge_pv_fold a rest _)
    · exact ih _ d hdrest perm hperm

theorem provision_pairs_established (dags : List DagModel) (t : Store) :
    ∀ d ∈ dags.filter (fun d => (d.is_active || d.is_paused) && !d.is_subdag),
      ∀ perm, perm = "can_dag_read" ∨ perm = "can_dag_edit" →
        d.dag_id = "" ∨ (d.dag_id, perm) ∈ allPvsPairs t ∨
          RowEstablished (provisionDagPvms dags t) perm d.dag_id := by
  intro d hd perm hperm
  rw [provisionDagPvms_eq]
  exact merge_pv_fold_pairs (allPvsPairs t) _ _ d hd perm hperm

/-! ## Seed-set decomposition lemmas -/

theorem seedIdsList_append (A B : List PermView) (vms perms : List String) :
    seedIdsList (A ++ B) vms perms =
      seedIdsList A vms perms ∪ seedIdsList B vms perms := by
  unfold seedIdsList
  rw [List.filter_append, List.map_append, List.toFinset_append]

theorem seedMatch_implies_valid (vms perms : List String) (pv : PermView)
    (h : seedMatch vms perms pv = true) : pv.validB = true := by
  unfold seedMatch at h
  unfold PermView.validB
  cases hp : pv.permission <;> cases hv : pv.view_menu <;>
    rw [hp, hv] at h <;> simp at h ⊢

theorem seedIdsList_filter_valid (lst : List PermView) (vms perms : List String) :
    seedIdsList (lst.filter PermView.validB) vms perms =
      seedIdsList lst vms perms := by
  unfold seedIdsList
  rw [List.filter_filter]
  congr 1
  apply congrArg
  apply List.filter_congr
  intro pv _
  by_cases h : seedMatch vms perms pv = true
  · rw [h, seedMatch_implies_valid vms perms pv h]
    rfl
  · rw [Bool.not_eq_true] at h
    rw [h]
    rfl

theorem seedIdsList_empty_of (lst : List PermView) (vms perms : List String)
    (h : ∀ pv ∈ lst, seedMatch vms perms pv = false) :
    seedIdsList lst vms perms = ∅ := by
  unfold seedIdsList
  rw [List.filter_eq_nil_iff.mpr]
  · rfl
  · intro pv hpv
    rw [h pv hpv]
    simp

theorem mem_seedIdsList (lst : List PermView) (vms perms : List String)
    (i : Nat) :
    i ∈ seedIdsList lst vms perms ↔
      ∃ pv ∈ lst, seedMatch vms perms pv = true ∧ pv.id = i := by
  unfold seedIdsList
  simp only [List.mem_toFinset, List.mem_map, List.mem_filter]
  constructor
  · intro ⟨pv, ⟨hpv, hm⟩, hid⟩
    exact ⟨pv, hpv, hm, hid⟩
  · intro ⟨pv, hpv, hm, hid⟩
    exact ⟨pv, ⟨hpv, hm⟩, hid⟩

theorem seedMatch_false_of_dagperm (vms perms : List String) (pv : PermView)
    (hperm : pv.permission = some "can_dag_read" ∨
      pv.permission = some "can_dag_edit")
    (hr : perms.contains "can_dag_read" = false)
    (he : perms.contains "can_dag_edit" = false) :
    seedMatch vms perms pv = false := by
  unfold seedMatch
  rcases hperm with h | h <;> rw [h] <;> cases hv : pv.view_menu <;>
    first
      | rfl
      | (dsimp only; rw [hr, Bool.and_false])
      | (dsimp only; rw [he, Bool.and_false])

/-! ## `init_role` disposition and cross-step role preservation -/

theorem init_role_disposition (t : Store) (n : String)
    (vms perms : List String) :
    ∃ r', find_role (init_role t n vms perms) n = some r' ∧
      ((∃ r, find_role t n = some r ∧ (rolePvms t r).length ≠ 0 ∧ r' = r) ∨
        r'.permissions = seedIds t vms perms) := by
  unfold init_role
  dsimp only
  cases h : find_role t n with
  | some r =>
    simp only [h]
    by_cases hlen : (rolePvms t r).length = 0
    · rw [if_pos hlen]
      refine ⟨⟨r.name, seedIds t vms perms⟩, ?_, Or.inr rfl⟩
      rw [find_role_update_role, h]
      have hname : r.name = n := find_role_some_name t n r h
      simp [hname]
    · rw [if_neg hlen]
      exact ⟨r, h, Or.inl ⟨r, rfl, hlen, rfl⟩⟩
  | none =>
    simp only [h]
    rw [find_role_add_role_self t n h]
    have h0 : (rolePvms (add_role t n) ⟨n, ∅⟩).length = 0 := by
      rw [rolePvms_empty]
      rfl
    simp only [h0, if_true]
    refine ⟨⟨n, seedIds t vms perms⟩, ?_, Or.inr rfl⟩
    rw [find_role_update_role, find_role_add_role_self t n h]
    have hseed : seedIds (add_role t n) vms perms = seedIds t vms perms :=
      seedIds_congr t (add_role t n) vms perms (add_role_pvms t n)
    simp [hseed]

theorem find_role_init_role_other (t : Store) (c : String)
    (cv cp : List String) (n : String) (r : Role) (hcn : ¬(c = n))
    (hr : find_role t n = some r) :
    find_role (init_role t c cv cp) n = some r := by
  have hnc : ¬(r.name = c) := by
    rw [find_role_some_name t n r hr]
    intro hc
    exact hcn hc.symm
  unfold init_role
  dsimp only
  cases h : find_role t c with
  | some rc =>
    simp only [h]
    split
    · rw [find_role_update_role, hr]
      simp [hnc]
    · exact hr
  | none =>
    simp only [h]
    have hr1 : find_role (add_role t c) n = some r :=
      find_role_add_role_of_found t n c r hr
    rw [find_role_add_role_self t c h]
    have h0 : (rolePvms (add_role t c) ⟨c, ∅⟩).length = 0 := by
      rw [rolePvms_empty]
      rfl
    simp only [h0, if_true]
    rw [find_role_update_role, hr1]
    simp [hnc]

theorem find_role_propagate (t t' : Store) (n : String)
    (h : propagateUserPerms t = some t')
    (hres : EXISTING_ROLES.contains n = true) :
    find_role t' n = find_role t n := by
  obtain ⟨u, _, _, ht'⟩ := propagate_eq t t' h
  subst ht'
  rw [find_role_eq_of_roles_map t _ _ rfl (fun r => by split <;> rfl) n]
  cases hf : find_role t n with
  | none => rfl
  | some r =>
    have hname : r.name = n := find_role_some_name t n r hf
    simp only [Option.map_some']
    rw [if_pos (by rw [hname]; exact hres)]

theorem find_role_update_admin_other (t t' : Store) (n : String)
    (h : update_admin_perm_view t = some t') (hn : ¬(n = "Admin")) :
    find_role t' n = find_role t n := by
  obtain ⟨admin, _, ht'⟩ := update_admin_eq t t' h
  subst ht'
  rw [find_role_update_role]
  cases hf : find_role t n with
  | none => rfl
  | some r =>
    have hname : r.name = n := find_role_some_name t n r hf
    simp only [Option.map_some']
    rw [if_neg (by rw [hname]; exact hn)]

/-- Case analysis for a configured role after its own `init_role` step,
phrased against a later store `s'` into which the step store's valid rows
persist: either the role's joined grant list at `s'` is non-empty, or the
role is empty and its seed set at the step store was empty. -/
theorem config_role_cases (tIn : Store) (n : String) (vms perms : List String)
    (s' : Store) (_hwfIn : WF tIn) (hnoaIn : NoOrphanAttached tIn)
    (hpersist : ∀ pv ∈ tIn.pvms, pv.validB = true → pv ∈ s'.pvms) :
    ∃ r', find_role (init_role tIn n vms perms) n = some r' ∧
      ((rolePvms s' r').length ≠ 0 ∨
        (r'.permissions = ∅ ∧ seedIds tIn vms perms = ∅)) := by
  obtain ⟨r', hfind', hcase⟩ := init_role_disposition tIn n vms perms
  refine ⟨r', hfind', ?_⟩
  rcases hcase with ⟨r, hfind, hlen, heq⟩ | hperm
  · left
    have hpos : 0 < (rolePvms tIn r).length := Nat.pos_of_ne_zero hlen
    obtain ⟨row, hrow⟩ := List.exists_mem_of_length_pos hpos
    unfold rolePvms at hrow
    rw [List.mem_filter, decide_eq_true_eq] at hrow
    obtain ⟨hrowmem, hrowid⟩ := hrow
    have hvalid : row.validB = true :=
      hnoaIn r (find_role_mem tIn n r hfind) row.id hrowid row hrowmem rfl
    have hrow' : row ∈ s'.pvms := hpersist row hrowmem hvalid
    have hmem : row ∈ rolePvms s' r' := by
      unfold rolePvms
      rw [List.mem_filter, decide_eq_true_eq]
      refine ⟨hrow', ?_⟩
      rw [heq]
      exact hrowid
    intro hc
    rw [List.length_eq_zero] at hc
    rw [hc] at hmem
    cases hmem
  · by_cases hK : seedIds tIn vms perms = ∅
    · exact Or.inr ⟨by rw [hperm, hK], hK⟩
    · left
      obtain ⟨i, hi⟩ := Finset.nonempty_iff_ne_empty.mpr hK
      obtain ⟨row, hrowmem, hmatch, hrowid⟩ :=
        (mem_seedIdsList tIn.pvms vms perms i).mp hi
      have hvalid : row.validB = true :=
        seedMatch_implies_valid vms perms row hmatch
      have hrow' : row ∈ s'.pvms := hpersist row hrowmem hvalid
      have hmem : row ∈ rolePvms s' r' := by
        unfold rolePvms
        rw [List.mem_filter, decide_eq_true_eq]
        refine ⟨hrow', ?_⟩
        rw [hperm]
        exact hrowid ▸ hi
      intro hc
      rw [List.length_eq_zero] at hc
      rw [hc] at hmem
      cases hmem

theorem seedIds_nonempty_of_row (t : Store) (vms perms : List String)
    (row : PermView) (hrow : row ∈ t.pvms)
    (hmatch : seedMatch vms perms row = true) :
    seedIds t vms perms ≠ ∅ := by
  intro hc
  have : row.id ∈ seedIds t vms perms :=
    (mem_seedIdsList t.pvms vms perms row.id).mpr ⟨row, hrow, hmatch, rfl⟩
  rw [hc] at this
  cases this

/-! ## Lemmas for `sync_perm_for_dag` (claim C9) -/

theorem syncPermStep_found (t : Store) (p d : String) :
    (find_permission_view_menu (syncPermStep t p d) p d).isSome = true := by
  unfold syncPermStep
  split
  · next pv h => simp [h]
  · rw [fpvm_isSome_iff]
    exact ⟨add_pvm_permissions_self t p d, add_pvm_view_menus_self t p d,
      ⟨t.nextId, some p, some d⟩, by simp, rfl, rfl⟩

theorem syncPermStep_mono (t : Store) (p' p d : String)
    (h : (find_permission_view_menu t p d).isSome = true) :
    (find_permission_view_menu (syncPermStep t p' d) p d).isSome = true := by
  unfold syncPermStep
  split
  · exact h
  · rw [fpvm_isSome_iff] at h ⊢
    obtain ⟨h1, h2, pv, hpv, hm⟩ := h
    exact ⟨add_pvm_permissions_mono _ _ _ _ h1, add_pvm_view_menus_mono _ _ _ _ h2,
      pv, mem_pvms_add_pvm _ _ _ _ hpv, hm⟩

theorem syncPermStep_of_found (t : Store) (p d : String)
    (h : (find_permission_view_menu t p d).isSome = true) :
    syncPermStep t p d = t := by
  unfold syncPermStep
  split
  · rfl
  · next hnone => rw [hnone] at h; cases h

/-- One `init_role` invocation (for any catalog entry) neither disturbs a
role that already has at least one joined grant row, nor the grant rows. -/
theorem init_role_preserve_nonempty (t : Store) (c : String)
    (cv cp : List String) (n : String) (r : Role)
    (hfind : find_role t n = some r) (hlen : (rolePvms t r).length ≠ 0) :
    find_role (init_role t c cv cp) n = some r := by
  unfold init_role
  dsimp only
  cases h : find_role t c with
  | some rc =>
    simp only [h]
    split
    · next hl0 =>
      rw [find_role_update_role, hfind]
      have hname : r.name = n := find_role_some_name t n r hfind
      by_cases hnc : n = c
      · subst hnc
        rw [hfind] at h
        cases h
        exact absurd hl0 hlen
      · simp [hname, hnc]
    · exact hfind
  | none =>
    simp only [h]
    have hfind1 : find_role (add_role t c) n = some r :=
      find_role_add_role_of_found t n c r hfind
    have hnc : n ≠ c := by
      intro he
      subst he
      rw [hfind] at h
      cases h
    rw [find_role_add_role_self t c h]
    have hempty : (rolePvms (add_role t c) ⟨c, ∅⟩).length = 0 := by
      rw [rolePvms_empty]
      rfl
    simp only [hempty, if_true]
    rw [find_role_update_role, hfind1]
    have hname : r.name = n := find_role_some_name t n r hfind
    simp [hname, hnc]

/-- Claim C2 — Seeding skip: a role that already has at least one joined grant
row is left exactly as it is, both by its own `init_role` call and by the
whole baseline-seeding pass (`seedRoles`); the pass also leaves the grant
rows themselves untouched. -/
theorem C2_seeding_skip (s : Store) (n : String) (vms perms : List String)
    (r : Role) (hfind : find_role s n = some r)
    (hlen : (rolePvms s r).length ≠ 0) :
    init_role s n vms perms = s ∧
    find_role (seedRoles s) n = some r ∧ (seedRoles s).pvms = s.pvms := by
  refine ⟨?_, ?_⟩
  · unfold init_role
    dsimp only
    simp only [hfind]
    simp [hlen]
  · unfold seedRoles ROLE_CONFIGS
    simp only [List.foldl_cons, List.foldl_nil]
    have step : ∀ (t : Store) (c : String) (cv cp : List String),
        (find_role t n = some r ∧ t.pvms = s.pvms) →
        (find_role (init_role t c cv cp) n = some r ∧
          (init_role t c cv cp).pvms = s.pvms) := by
      intro t c cv cp ⟨h1, h2⟩
      have hlen' : (rolePvms t r).length ≠ 0 := by
        rw [rolePvms_congr s t r h2]
        exact hlen
      exact ⟨init_role_preserve_nonempty t c _ _ n r h1 hlen',
        (init_role_pvms t c _ _).trans h2⟩
    have h1 := step s "Viewer" (VIEWER_VMS ++ DAG_VMS) VIEWER_PERMS ⟨hfind, rfl⟩
    have h2 := step _ "User" (VIEWER_VMS ++ DAG_VMS ++ USER_VMS)
      (VIEWER_PERMS ++ USER_PERMS ++ DAG_PERMS) h1
    have h3 := step _ "Op" (VIEWER_VMS ++ DAG_VMS ++ USER_VMS ++ OP_VMS)
      (VIEWER_PERMS ++ USER_PERMS ++ OP_PERMS ++ DAG_PERMS) h2
    exact h3

/-- Witness for C2: a Viewer role with one manually attached grant row
survives `init_role` (with a differing baseline) and the seeding pass. -/
theorem C2_witness :
    init_role ⟨["a"], ["b"], [⟨0, some "a", some "b"⟩], [⟨"Viewer", {0}⟩], 1⟩
        "Viewer" (VIEWER_VMS ++ DAG_VMS) VIEWER_PERMS =
      ⟨["a"], ["b"], [⟨0, some "a", some "b"⟩], [⟨"Viewer", {0}⟩], 1⟩ ∧
    find_role (seedRoles ⟨["a"], ["b"], [⟨0, some "a", some "b"⟩], [⟨"Viewer", {0}⟩], 1⟩)
        "Viewer" = some ⟨"Viewer", {0}⟩ ∧
    (seedRoles ⟨["a"], ["b"], [⟨0, some "a", some "b"⟩], [⟨"Viewer", {0}⟩], 1⟩).pvms =
      [⟨0, some "a", some "b"⟩] :=
  C2_seeding_skip ⟨["a"], ["b"], [⟨0, some "a", some "b"⟩], [⟨"Viewer", {0}⟩], 1⟩
    "Viewer" (VIEWER_VMS ++ DAG_VMS) VIEWER_PERMS ⟨"Viewer", {0}⟩
    (by decide) (by decide)

/-- Membership in the seed set, for stores with distinct grant-row ids. -/
theorem mem_seedIds_iff (s : Store) (vms perms : List String)
    (hnd : (s.pvms.map PermView.id).Nodup) (pv : PermView)
    (hpv : pv ∈ s.pvms) :
    (pv.id ∈ seedIds s vms perms) ↔
      ((match pv.permission, pv.view_menu with
        | some p, some v => vms.contains v && perms.contains p
        | _, _ => false) = true) := by
  unfold seedIds seedIdsList
  simp only [List.mem_toFinset, List.mem_map, List.mem_filter]
  constructor
  · intro ⟨pv', ⟨hpv', hm⟩, hid⟩
    have : pv' = pv := List.inj_on_of_nodup_map hnd hpv' hpv hid
    subst this
    exact hm
  · intro hm
    exact ⟨pv, ⟨hpv, hm⟩, rfl⟩

/-- Claim C3 — Empty-role seeding: when the role is absent or its joined grant
list is empty, `init_role` (creating the role first when needed) leaves the
role holding exactly the valid grant rows whose view-menu name is in
`role_vms` and whose permission name is in `role_perms`. -/
theorem C3_empty_role_seeding (s : Store) (n : String) (vms perms : List String)
    (hnd : (s.pvms.map PermView.id).Nodup)
    (hempty : find_role s n = none ∨
      ∃ r, find_role s n = some r ∧ (rolePvms s r).length = 0) :
    ∃ r', find_role (init_role s n vms perms) n = some r' ∧
      r'.name = n ∧
      r'.permissions = seedIds s vms perms ∧
      rolePvms (init_role s n vms perms) r' =
        (validPvms s).filter (fun pv =>
          match pv.permission, pv.view_menu with
          | some p, some v => vms.contains v && perms.contains p
          | _, _ => false) := by
  have main : ∀ r', find_role (init_role s n vms perms) n = some r' →
      r'.permissions = seedIds s vms perms →
      rolePvms (init_role s n vms perms) r' =
        (validPvms s).filter (fun pv =>
          match pv.permission, pv.view_menu with
          | some p, some v => vms.contains v && perms.contains p
          | _, _ => false) := by
    intro r' _ hperm
    have hpvms : (init_role s n vms perms).pvms = s.pvms := init_role_pvms s n vms perms
    unfold rolePvms
    rw [hpvms]
    have step1 : s.pvms.filter (fun pv => decide (pv.id ∈ r'.permissions)) =
        s.pvms.filter (fun pv =>
          (match pv.permission, pv.view_menu with
           | some p, some v => vms.contains v && perms.contains p
           | _, _ => false) && PermView.validB pv) := by
      apply List.filter_congr
      intro pv hpv
      dsimp only
      have hiff := mem_seedIds_iff s vms perms hnd pv hpv
      by_cases hm : (match pv.permission, pv.view_menu with
        | some p, some v => vms.contains v && perms.contains p
        | _, _ => false) = true
      · have hv : PermView.validB pv = true := by
          unfold PermView.validB
          cases hp : pv.permission <;> cases hvm : pv.view_menu <;>
            simp [hp, hvm] at hm ⊢
        have h1 : decide (pv.id ∈ r'.permissions) = true := by
          rw [hperm]
          exact decide_eq_true (hiff.mpr hm)
        rw [h1, hv, hm]
        rfl
      · simp only [Bool.not_eq_true] at hm
        have hnotin : pv.id ∉ seedIds s vms perms := by
          intro hc
          rw [hiff] at hc
          rw [hm] at hc
          cases hc
        have h1 : decide (pv.id ∈ r'.permissions) = false := by
          rw [hperm]
          exact decide_eq_false hnotin
        rw [h1, hm]
        rfl
    rw [step1]
    unfold validPvms
    rw [List.filter_filter]
  cases hempty with
  | inl habsent =>
    refine ⟨⟨n, seedIds s vms perms⟩, ?_, rfl, rfl, ?_⟩
    · unfold init_role
      dsimp only
      simp only [habsent]
      rw [find_role_add_role_self s n habsent]
      have h0 : (rolePvms (add_role s n) ⟨n, ∅⟩).length = 0 := by
        rw [rolePvms_empty]
        rfl
      simp only [h0, if_true]
      rw [find_role_update_role, find_role_add_role_self s n habsent]
      have hseed : seedIds (add_role s n) vms perms = seedIds s vms perms :=
        seedIds_congr s (add_role s n) vms perms (add_role_pvms s n)
      simp [hseed]
    · apply main
      · unfold init_role
        dsimp only
        simp only [habsent]
        rw [find_role_add_role_self s n habsent]
        have h0 : (rolePvms (add_role s n) ⟨n, ∅⟩).length = 0 := by
          rw [rolePvms_empty]
          rfl
        simp only [h0, if_true]
        rw [find_role_update_role, find_role_add_role_self s n habsent]
        have hseed : seedIds (add_role s n) vms perms = seedIds s vms perms :=
          seedIds_congr s (add_role s n) vms perms (add_role_pvms s n)
        simp [hseed]
      · rfl
  | inr hsome =>
    obtain ⟨r, hr, hlen⟩ := hsome
    have hname : r.name = n := find_role_some_name s n r hr
    refine ⟨{ r with permissions := seedIds s vms perms }, ?_, hname, rfl, ?_⟩
    · unfold init_role
      dsimp only
      simp only [hr, hlen, if_true]
      rw [find_role_update_role, hr]
      simp [hname]
    · apply main
      · unfold init_role
        dsimp only
        simp only [hr, hlen, if_true]
        rw [find_role_update_role, hr]
        simp [hname]
      · rfl

/-- Witness for C3 (the spec's seeding scenario): role `Viewer` exists and
is empty, the store has the valid grant `(can_show, Dashboard)`, the
baseline names `can_show` and `Dashboard`; after `init_role` the role holds
exactly that grant row. -/
theorem C3_witness :
    ∃ r', find_role (init_role
        ⟨["can_show"], ["Dashboard"], [⟨0, some "can_show", some "Dashboard"⟩],
         [⟨"Viewer", ∅⟩], 1⟩ "Viewer" ["Dashboard"] ["can_show"]) "Viewer" = some r' ∧
      r'.name = "Viewer" ∧
      r'.permissions = seedIds
        ⟨["can_show"], ["Dashboard"], [⟨0, some "can_show", some "Dashboard"⟩],
         [⟨"Viewer", ∅⟩], 1⟩ ["Dashboard"] ["can_show"] ∧
      rolePvms (init_role
        ⟨["can_show"], ["Dashboard"], [⟨0, some "can_show", some "Dashboard"⟩],
         [⟨"Viewer", ∅⟩], 1⟩ "Viewer" ["Dashboard"] ["can_show"]) r' =
        (validPvms ⟨["can_show"], ["Dashboard"],
          [⟨0, some "can_show", some "Dashboard"⟩], [⟨"Viewer", ∅⟩], 1⟩).filter
          (fun pv =>
            match pv.permission, pv.view_menu with
            | some p, some v => List.contains ["Dashboard"] v && List.contains ["can_show"] p
            | _, _ => false) :=
  C3_empty_role_seeding
    ⟨["can_show"], ["Dashboard"], [⟨0, some "can_show", some "Dashboard"⟩],
     [⟨"Viewer", ∅⟩], 1⟩ "Viewer" ["Dashboard"] ["can_show"]
    (by decide) (Or.inr ⟨⟨"Viewer", ∅⟩, by decide, by decide⟩)

/-- Membership in `validIds`, for stores with distinct grant-row ids. -/
theorem mem_validIds_iff (s : Store) (hnd : (s.pvms.map PermView.id).Nodup)
    (pv : PermView) (hpv : pv ∈ s.pvms) :
    pv.id ∈ validIds s ↔ pv.validB = true := by
  unfold validIds validPvms
  simp only [List.mem_toFinset, List.mem_map, List.mem_filter]
  constructor
  · intro ⟨pv', ⟨hpv', hval⟩, hid⟩
    have : pv' = pv := List.inj_on_of_nodup_map hnd hpv' hpv hid
    subst this
    exact hval
  · intro hval
    exact ⟨pv, ⟨hpv, hval⟩, rfl⟩

/-- Claim C5 — Administrator repair: `update_admin_perm_view` leaves the
`Admin` role holding exactly the union of its previous grant rows and
every valid grant row in the store; no grant row is removed from `Admin`
and the grant rows themselves are untouched. -/
theorem C5_admin_repair (s : Store) (admin : Role) (s' : Store)
    (hnd : (s.pvms.map PermView.id).Nodup)
    (hadmin : find_role s "Admin" = some admin)
    (h : update_admin_perm_view s = some s') :
    ∃ admin', find_role s' "Admin" = some admin' ∧
      (rolePvms s' admin').toFinset =
        (rolePvms s admin).toFinset ∪ (validPvms s).toFinset ∧
      (∀ pv ∈ rolePvms s admin, pv ∈ rolePvms s' admin') ∧
      s'.pvms = s.pvms := by
  unfold update_admin_perm_view at h
  rw [hadmin] at h
  simp only [Option.some.injEq] at h
  subst h
  have hname : admin.name = "Admin" := find_role_some_name s "Admin" admin hadmin
  refine ⟨⟨admin.name,
      (admin.permissions.filter (fun i => s.pvms.any (fun pv => pv.id == i)))
        ∪ validIds s⟩, ?_, ?_, ?_, rfl⟩
  · rw [find_role_update_role, hadmin]
    simp [hname]
  · have hmem : ∀ pv ∈ s.pvms,
        (pv.id ∈ (admin.permissions.filter (fun i => s.pvms.any (fun x => x.id == i)))
            ∪ validIds s ↔
          pv.id ∈ admin.permissions ∨ pv.validB = true) := by
      intro pv hpv
      rw [Finset.mem_union, Finset.mem_filter, mem_validIds_iff s hnd pv hpv]
      constructor
      · intro hc
        cases hc with
        | inl hc => exact Or.inl hc.1
        | inr hc => exact Or.inr hc
      · intro hc
        cases hc with
        | inl hc =>
          refine Or.inl ⟨hc, ?_⟩
          rw [List.any_eq_true]
          exact ⟨pv, hpv, by simp⟩
        | inr hc => exact Or.inr hc
    ext pv
    simp only [List.mem_toFinset, Finset.mem_union]
    unfold rolePvms validPvms
    simp only [List.mem_filter, update_role_pvms, decide_eq_true_eq]
    constructor
    · intro ⟨hpv, hid⟩
      rcases (hmem pv hpv).mp hid with hc | hc
      · exact Or.inl ⟨hpv, hc⟩
      · exact Or.inr ⟨hpv, hc⟩
    · intro hc
      rcases hc with ⟨hpv, hc⟩ | ⟨hpv, hc⟩
      · exact ⟨hpv, (hmem pv hpv).mpr (Or.inl hc)⟩
      · exact ⟨hpv, (hmem pv hpv).mpr (Or.inr hc)⟩
  · intro pv hpv
    unfold rolePvms at hpv ⊢
    simp only [List.mem_filter, update_role_pvms, decide_eq_true_eq] at hpv ⊢
    refine ⟨hpv.1, ?_⟩
    rw [Finset.mem_union, Finset.mem_filter]
    refine Or.inl ⟨hpv.2, ?_⟩
    rw [List.any_eq_true]
    exact ⟨pv, hpv.1, by simp⟩

/-- Witness for C5: a store with one valid grant row and an `Admin` role
not yet holding it; after the pass `Admin` holds exactly that row. -/
theorem C5_witness :
    ∃ admin', find_role (update_role
        ⟨["p"], ["v"], [⟨0, some "p", some "v"⟩], [⟨"Admin", ∅⟩], 1⟩ "Admin"
        ((∅ : Finset Nat).filter (fun i =>
            [(⟨0, some "p", some "v"⟩ : PermView)].any (fun pv => pv.id == i))
          ∪ validIds ⟨["p"], ["v"], [⟨0, some "p", some "v"⟩], [⟨"Admin", ∅⟩], 1⟩))
        "Admin" = some admin' ∧
      (rolePvms (update_role
        ⟨["p"], ["v"], [⟨0, some "p", some "v"⟩], [⟨"Admin", ∅⟩], 1⟩ "Admin"
        ((∅ : Finset Nat).filter (fun i =>
            [(⟨0, some "p", some "v"⟩ : PermView)].any (fun pv => pv.id == i))
          ∪ validIds ⟨["p"], ["v"], [⟨0, some "p", some "v"⟩], [⟨"Admin", ∅⟩], 1⟩))
        admin').toFinset =
        (rolePvms ⟨["p"], ["v"], [⟨0, some "p", some "v"⟩], [⟨"Admin", ∅⟩], 1⟩
          ⟨"Admin", ∅⟩).toFinset ∪
        (validPvms ⟨["p"], ["v"], [⟨0, some "p", some "v"⟩], [⟨"Admin", ∅⟩], 1⟩).toFinset ∧
      (∀ pv ∈ rolePvms ⟨["p"], ["v"], [⟨0, some "p", some "v"⟩], [⟨"Admin", ∅⟩], 1⟩
          ⟨"Admin", ∅⟩,
        pv ∈ rolePvms (update_role
          ⟨["p"], ["v"], [⟨0, some "p", some "v"⟩], [⟨"Admin", ∅⟩], 1⟩ "Admin"
          ((∅ : Finset Nat).filter (fun i =>
              [(⟨0, some "p", some "v"⟩ : PermView)].any (fun pv => pv.id == i))
            ∪ validIds ⟨["p"], ["v"], [⟨0, some "p", some "v"⟩], [⟨"Admin", ∅⟩], 1⟩))
          admin') ∧
      (update_role ⟨["p"], ["v"], [⟨0, some "p", some "v"⟩], [⟨"Admin", ∅⟩], 1⟩ "Admin"
        ((∅ : Finset Nat).filter (fun i =>
            [(⟨0, some "p", some "v"⟩ : PermView)].any (fun pv => pv.id == i))
          ∪ validIds ⟨["p"], ["v"], [⟨0, some "p", some "v"⟩], [⟨"Admin", ∅⟩], 1⟩)).pvms =
        [⟨0, some "p", some "v"⟩] :=
  C5_admin_repair ⟨["p"], ["v"], [⟨0, some "p", some "v"⟩], [⟨"Admin", ∅⟩], 1⟩
    ⟨"Admin", ∅⟩ _ (by decide) (by decide) rfl

/-- The membership test `'Public' in username.roles` compares a string to
role objects and never succeeds. -/
theorem pyStrInRoles_false (n : String) (roles : List Role) :
    pyStrInRoles n roles = false := by
  unfold pyStrInRoles pyStrEqRole
  simp

/-- Claim C8 counterexample — a non-anonymous user whose only role is named
`Public` (holding the grant `(can_dag_read, wf-1)`) gets `{wf-1}` from
`get_accessible_dag_ids`, not the empty set the claim requires for a
public-only user: the source's `'Public' in username.roles` compares a
string to role objects and never fires. -/
theorem C8_counterexample :
    (⟨false, [⟨"Public", {0}⟩]⟩ : AbUser).roles.map Role.name = ["Public"] ∧
    (⟨false, [⟨"Public", {0}⟩]⟩ : AbUser).is_anonymous = false ∧
    get_accessible_dag_ids none
        ⟨[], [], [⟨0, some "can_dag_read", some "wf-1"⟩], [⟨"Public", {0}⟩], 1⟩
        ⟨false, [⟨"Public", {0}⟩]⟩ none = {"wf-1"} ∧
    ({"wf-1"} : Finset String) ≠ (∅ : Finset String) := by
  refine ⟨rfl, rfl, by decide, by decide⟩

/-- Claim C8 (amended) — `get_accessible_dag_ids` on the default invocation
agrees with the amended specification `accessibleAmendedSpec`. -/
theorem C8_accessible_dag_ids_amended (pub : Option String) (s : Store)
    (g : AbUser) :
    get_accessible_dag_ids pub s g none = accessibleAmendedSpec pub s g := by
  unfold get_accessible_dag_ids accessibleAmendedSpec
  simp only [Option.getD, pyStrInRoles_false, Bool.or_false]
  cases hanon : g.is_anonymous with
  | true => simp
  | false =>
    simp only [Bool.false_eq_true, if_false]
    have hpriv :
        (({"Admin", "Viewer", "User", "Op"} : Finset String) ∩
            (g.roles.map Role.name).toFinset).Nonempty ↔
          (g.roles.any (fun r =>
            ["Admin", "Viewer", "User", "Op"].contains r.name)) = true := by
      unfold Finset.Nonempty
      simp only [Finset.mem_inter, List.mem_toFinset, List.mem_map,
        List.any_eq_true, List.elem_iff]
      constructor
      · intro ⟨x, hx, r, hr, hname⟩
        exact ⟨r, hr, by rw [hname]; exact hx⟩
      · intro ⟨r, hr, hx⟩
        exact ⟨r.name, hx, r, hr, rfl⟩
    by_cases hp : (g.roles.any (fun r =>
        ["Admin", "Viewer", "User", "Op"].contains r.name)) = true
    · rw [if_pos (hpriv.mpr hp), if_pos hp]
      rfl
    · have hp' := hp
      rw [Bool.not_eq_true] at hp'
      rw [if_neg (fun hc => hp (hpriv.mp hc)), if_neg (by rw [hp']; simp)]
      apply congrArg
      apply Finset.filter_congr
      intro pr _
      simp [DAG_PERMS, List.elem_iff]

/-- Claim C7 — (code evaluation at the failing input): with an active,
non-subdag dag `wf-1` and a store holding a crossed grant row (permission
named `wf-1`, view-menu named `can_dag_read`), `sync_roles` does NOT create
the `(can_dag_read, wf-1)` grant — the reversed-tuple test in `merge_pv`
skips it — although it does create `(can_dag_edit, wf-1)`; on a clean store
both grants are created for active non-subdag dags and none for subdags. -/
theorem C7_crossed_row_skips_creation :
    ((sync_roles [⟨"wf-1", true, false, false⟩]
        ⟨["wf-1"], ["can_dag_read"], [⟨0, some "wf-1", some "can_dag_read"⟩],
         [⟨"Admin", ∅⟩], 1⟩).map
      (fun t =>
        (t.pvms.any (fun pv =>
            pv.permission == some "can_dag_read" && pv.view_menu == some "wf-1"),
         t.pvms.any (fun pv =>
            pv.permission == some "can_dag_edit" && pv.view_menu == some "wf-1")))) =
      some (false, true) ∧
    ((sync_roles [⟨"wf-1", true, false, false⟩, ⟨"wf-sub", true, false, true⟩]
        ⟨[], [], [], [⟨"Admin", ∅⟩], 0⟩).map
      (fun t =>
        (t.pvms.any (fun pv =>
            pv.permission == some "can_dag_read" && pv.view_menu == some "wf-1"),
         t.pvms.any (fun pv =>
            pv.permission == some "can_dag_edit" && pv.view_menu == some "wf-1"),
         t.pvms.any (fun pv => pv.view_menu == some "wf-sub")))) =
      some (true, true, false) := by
  constructor
  · decide
  · decide

/-- Claim C4 — Dynamic-role propagation is additive-only and yields the
superset invariant.  First part: the propagation pass touches neither the
grant rows nor any reserved role, and gives every non-reserved role exactly
the reference associations it was missing (inserted set = reference set
minus current set), removing nothing.  Second part: after a successful
`sync_roles`, every dynamic role's grant pairs include every grant pair of
the `User` role whose resource is not the `all_dags` wildcard. -/
theorem C4_dynamic_role_propagation :
    (∀ s s1, propagateUserPerms s = some s1 →
      s1.pvms = s.pvms ∧ s1.permissions = s.permissions ∧
      (∀ r ∈ s.roles, EXISTING_ROLES.contains r.name = true → r ∈ s1.roles) ∧
      (∀ u, find_role s "User" = some u →
        ∀ r ∈ s.roles, ¬(EXISTING_ROLES.contains r.name = true) →
          ∃ r' ∈ s1.roles, r'.name = r.name ∧
            r'.permissions = r.permissions ∪ refIds s u ∧
            r.permissions ⊆ r'.permissions ∧
            r'.permissions \ r.permissions = refIds s u \ r.permissions)) ∧
    (∀ dags s s' u', sync_roles dags s = some s' →
      find_role s' "User" = some u' →
      ∀ r' ∈ s'.roles, ¬(EXISTING_ROLES.contains r'.name = true) →
        ∀ p v, (p, v) ∈ rolePairs s' u' → v ≠ "all_dags" →
          (p, v) ∈ rolePairs s' r') := by
  constructor
  · intro s s1 h
    obtain ⟨u0, hu0, _, hs1⟩ := propagate_eq s s1 h
    subst hs1
    refine ⟨rfl, rfl, ?_, ?_⟩
    · intro r hr hres
      simp only [List.mem_map]
      exact ⟨r, hr, by rw [if_pos hres]⟩
    · intro u hu r hr hdyn
      rw [hu0] at hu
      cases hu
      refine ⟨⟨r.name, r.permissions ∪ (refIds s u0 \ r.permissions)⟩, ?_, rfl, ?_, ?_, ?_⟩
      · simp only [List.mem_map]
        refine ⟨r, hr, ?_⟩
        rw [if_neg hdyn]
      · exact Finset.union_sdiff_self_eq_union
      · exact Finset.subset_union_left
      · rw [Finset.union_sdiff_left]
        exact sdiff_idem
  · intro dags s s' u' hsync hfindu r' hr' hdyn p v hpr hv
    obtain ⟨s3, s4, hprop, hadmin, hclean⟩ := sync_roles_eq dags s s' hsync
    set t3 := provisionDagPvms dags (seedRoles (create_perm_vm_for_all_dag s)) with ht3
    obtain ⟨u, hu, _, hs3⟩ := propagate_eq _ s3 hprop
    obtain ⟨admin, hadminfind, hs4⟩ := update_admin_eq s3 s4 hadmin
    have huname : u.name = "User" := find_role_some_name _ _ u hu
    -- the roles of s' are those of s3 with only the role named Admin changed
    have hroles4 : s4.roles = s3.roles.map (fun r =>
        if r.name = "Admin" then
          (⟨r.name, (admin.permissions.filter
            (fun i => s3.pvms.any (fun pv => pv.id == i))) ∪ validIds s3⟩ : Role)
        else r) := by
      rw [hs4]
      rfl
    have hrolesClean : s'.roles = s4.roles := by
      rw [hclean]
      rfl
    have hpvms4 : s4.pvms = s3.pvms := by
      rw [hs4]
      rfl
    have hpvms3 : s3.pvms = t3.pvms := by
      rw [hs3]
    have hpvmsClean : s'.pvms = s4.pvms.filter PermView.validB := by
      rw [hclean]
      rfl
    -- identify u' with u
    have hfind4 : find_role s4 "User" = find_role s3 "User" := by
      rw [find_role_eq_of_roles_map s3 s4 _ hroles4
        (fun r => by split <;> rfl) "User"]
      cases hf : find_role s3 "User" with
      | none => rfl
      | some r0 =>
        have : r0.name = "User" := find_role_some_name s3 "User" r0 hf
        simp [this]
    have hfind3 : find_role s3 "User" = some u := by
      have hmap : find_role s3 "User" = (find_role t3 "User").map (fun r =>
          if EXISTING_ROLES.contains r.name then r
          else ⟨r.name, r.permissions ∪ (refIds t3 u \ r.permissions)⟩) := by
        apply find_role_eq_of_roles_map
        · rw [hs3]
        · intro r
          split <;> rfl
      rw [hmap, hu]
      have hres : EXISTING_ROLES.contains u.name = true := by
        rw [huname]
        rfl
      simp only [Option.map_some']
      rw [if_pos hres]
    have hfindu' : find_role s' "User" = some u := by
      rw [find_role_eq_of_roles_eq s4 s' hrolesClean, hfind4, hfind3]
    have huu : u = u' := Option.some.inj (hfindu'.symm.trans hfindu)
    -- trace r' back to a role of the propagation input
    rw [hrolesClean, hroles4] at hr'
    obtain ⟨r3, hr3, hr3eq⟩ := List.mem_map.mp hr'
    have hr3name : r3.name = r'.name := by
      rw [← hr3eq]
      split <;> rfl
    have hnotadmin : ¬(r3.name = "Admin") := by
      intro hc
      apply hdyn
      rw [← hr3name, hc]
      rfl
    have hr'eq : r' = r3 := by
      rw [← hr3eq, if_neg hnotadmin]
    rw [hs3] at hr3
    simp only [List.mem_map] at hr3
    obtain ⟨r0, hr0, hr0eq⟩ := hr3
    have hr0name : r0.name = r3.name := by
      rw [← hr0eq]
      split <;> rfl
    have hdyn0 : ¬(EXISTING_ROLES.contains r0.name = true) := by
      rw [hr0name, hr3name]
      exact hdyn
    have hr3perm : refIds t3 u ⊆ r3.permissions := by
      rw [← hr0eq, if_neg hdyn0]
      calc refIds t3 u ⊆ r0.permissions ∪ refIds t3 u := Finset.subset_union_right
        _ = r0.permissions ∪ (refIds t3 u \ r0.permissions) :=
          Finset.union_sdiff_self_eq_union.symm
    -- the grant row behind the pair
    rw [mem_rolePairs] at hpr
    obtain ⟨row, hrowmem, hrowid, hrowp, hrowv⟩ := hpr
    have hrowidu : row.id ∈ u.permissions := by
      rw [huu]
      exact hrowid
    have hrow3 : row ∈ t3.pvms := by
      rw [hpvmsClean, hpvms4, List.mem_filter] at hrowmem
      rw [← hpvms3]
      exact hrowmem.1
    have hrowref : row.id ∈ refIds t3 u := by
      rw [mem_refIds]
      refine ⟨hrowidu, row, hrow3, rfl, by simp [hrowv], ?_⟩
      rw [hrowv]
      intro hc
      simp only [Option.some.injEq] at hc
      exact hv hc
    rw [hr'eq, mem_rolePairs]
    exact ⟨row, hrowmem, hr3perm hrowref, hrowp, hrowv⟩

/-- Witness for C4 (the spec's propagation scenario): dynamic role
`wf-1-editors` starts empty, `User` holds `(can_edit, wf-1)` and
`(can_edit, all_dags)`; after `sync_roles` the dynamic role's pairs
include `(can_edit, wf-1)` (the wildcard pair is not required). -/
theorem C4_witness :
    ("can_edit", "wf-1") ∈ rolePairs
      ⟨["can_edit", "can_dag_read", "can_dag_edit"], ["wf-1", "all_dags"],
       [⟨0, some "can_edit", some "wf-1"⟩, ⟨1, some "can_edit", some "all_dags"⟩,
        ⟨2, some "can_dag_read", some "all_dags"⟩,
        ⟨3, some "can_dag_edit", some "all_dags"⟩],
       [⟨"Admin", {0, 1, 2, 3}⟩, ⟨"User", {0, 1}⟩, ⟨"wf-1-editors", {0}⟩,
        ⟨"Viewer", ∅⟩, ⟨"Op", {1, 2, 3}⟩], 4⟩
      ⟨"wf-1-editors", {0}⟩ :=
  C4_dynamic_role_propagation.2 []
    ⟨["can_edit"], ["wf-1", "all_dags"],
     [⟨0, some "can_edit", some "wf-1"⟩, ⟨1, some "can_edit", some "all_dags"⟩],
     [⟨"Admin", ∅⟩, ⟨"User", {0, 1}⟩, ⟨"wf-1-editors", ∅⟩], 2⟩
    ⟨["can_edit", "can_dag_read", "can_dag_edit"], ["wf-1", "all_dags"],
     [⟨0, some "can_edit", some "wf-1"⟩, ⟨1, some "can_edit", some "all_dags"⟩,
      ⟨2, some "can_dag_read", some "all_dags"⟩,
      ⟨3, some "can_dag_edit", some "all_dags"⟩],
     [⟨"Admin", {0, 1, 2, 3}⟩, ⟨"User", {0, 1}⟩, ⟨"wf-1-editors", {0}⟩,
      ⟨"Viewer", ∅⟩, ⟨"Op", {1, 2, 3}⟩], 4⟩
    ⟨"User", {0, 1}⟩ (by decide) (by decide)
    ⟨"wf-1-editors", {0}⟩ (by decide) (by decide)
    "can_edit" "wf-1" (by decide) (by decide)

/-- Claim C1 (amended) — `sync_roles` is idempotent on well-formed stores in
which no role is attached to an invalid grant row: when a run succeeds with
output `s'`, running it again on `s'` returns `s'` unchanged. -/
theorem C1_sync_roles_idempotent (dags : List DagModel) (s s' : Store)
    (hwf : WF s) (hnoa : NoOrphanAttached s)
    (h : sync_roles dags s = some s') : sync_roles dags s' = some s' := by
  obtain ⟨s3, s4, hprop, hadmin, hclean⟩ := sync_roles_eq dags s s' h
  set s1 := create_perm_vm_for_all_dag s with hs1def
  set s2 := seedRoles s1 with hs2def
  set t3 := provisionDagPvms dags s2 with ht3def
  obtain ⟨u, hu, hvm3, hs3⟩ := propagate_eq t3 s3 hprop
  obtain ⟨admin, hadminfind, hs4⟩ := update_admin_eq s3 s4 hadmin
  -- invariants along the pipeline
  have haddo1 : AddOnly s s1 := addOnly_cpvfad s
  have hwf1 : WF s1 := WF_addOnly s s1 haddo1 hwf
  have hnoa1 : NoOrphanAttached s1 := NOA_addOnly s s1 haddo1 hnoa
  have hwf2 : WF s2 := WF_seedRoles s1 hwf1
  have hnoa2 : NoOrphanAttached s2 := NOA_seedRoles s1 hwf1 hnoa1
  have haddo3 : AddOnly s2 t3 := addOnly_provision dags s2
  have hwft3 : WF t3 := WF_addOnly s2 t3 haddo3 hwf2
  have hnoat3 : NoOrphanAttached t3 := NOA_addOnly s2 t3 haddo3 hnoa2
  have hwf3 : WF s3 := WF_propagate t3 s3 hprop hwft3
  have hnoa3 : NoOrphanAttached s3 := NOA_propagate t3 s3 hprop hnoat3
  have hwf4 : WF s4 := WF_update_admin s3 s4 hadmin hwf3
  have hwf' : WF s' := by
    rw [hclean]
    exact WF_clean s4 hwf4
  -- stage field equations
  have hpvms3eq : s3.pvms = t3.pvms := by rw [hs3]
  have hperm3eq : s3.permissions = t3.permissions := by rw [hs3]
  have hvmeq3 : s3.view_menus = t3.view_menus := by rw [hs3]
  have hroles3eq : s3.roles = t3.roles.map (fun r =>
      if EXISTING_ROLES.contains r.name then r
      else { r with permissions :=
        r.permissions ∪ (refIds t3 u \ r.permissions) }) := by
    rw [hs3]
  have hpvms4eq : s4.pvms = s3.pvms := by rw [hs4]; rfl
  have hperm4eq : s4.permissions = s3.permissions := by rw [hs4]; rfl
  have hvmeq4 : s4.view_menus = s3.view_menus := by rw [hs4]; rfl
  have hroles4eq : s4.roles = s3.roles.map (fun r =>
      if r.name = "Admin" then
        (⟨r.name, (admin.permissions.filter
          (fun i => s3.pvms.any (fun pv => pv.id == i))) ∪ validIds s3⟩ : Role)
      else r) := by
    rw [hs4]
    rfl
  have hpvmsEq : s'.pvms = t3.pvms.filter PermView.validB := by
    rw [hclean, clean_perms_pvms, hpvms4eq, hpvms3eq]
  have hpermEq : s'.permissions = t3.permissions := by
    rw [hclean, clean_perms_permissions, hperm4eq, hperm3eq]
  have hvmEq : s'.view_menus = t3.view_menus := by
    rw [hclean, clean_perms_view_menus, hvmeq4, hvmeq3]
  have hrolesEq : s'.roles = s4.roles := by
    rw [hclean, clean_perms_roles]
  have hvalid' : ∀ pv ∈ s'.pvms, pv.validB = true := by
    intro pv hpv
    rw [hpvmsEq, List.mem_filter] at hpv
    exact hpv.2
  have hnd' : (s'.roles.map Role.name).Nodup := hwf'.2.2.1
  -- persistence of valid rows into s'
  have hpersist3 : ∀ pv ∈ t3.pvms, pv.validB = true → pv ∈ s'.pvms := by
    intro pv hpv hval
    rw [hpvmsEq, List.mem_filter]
    exact ⟨hpv, hval⟩
  obtain ⟨ladd, hladd, hladdrows⟩ := haddo3.pvms_ext
  have hpersist2 : ∀ pv ∈ s2.pvms, pv.validB = true → pv ∈ s'.pvms := by
    intro pv hpv hval
    refine hpersist3 pv ?_ hval
    rw [hladd]
    exact List.mem_append_left _ hpv
  have hpvms2eq : s2.pvms = s1.pvms := seedRoles_pvms s1
  -- the all_dags rows are established everywhere
  have hre2r : RowEstablished s2 "can_dag_read" "all_dags" :=
    RowEstablished_of_fields s1 s2 _ _ (seedRoles_permissions s1)
      (seedRoles_view_menus s1) (seedRoles_pvms s1) (cpvfad_post s).1
  have hre2e : RowEstablished s2 "can_dag_edit" "all_dags" :=
    RowEstablished_of_fields s1 s2 _ _ (seedRoles_permissions s1)
      (seedRoles_view_menus s1) (seedRoles_pvms s1) (cpvfad_post s).2
  have hre3r : RowEstablished t3 "can_dag_read" "all_dags" :=
    hre2r.mono_addOnly haddo3
  have hre3e : RowEstablished t3 "can_dag_edit" "all_dags" :=
    hre2e.mono_addOnly haddo3
  have hre_out : ∀ p v, RowEstablished t3 p v → RowEstablished s' p v := by
    intro p v hre
    obtain ⟨h1, h2, row, hrow, hm1, hm2⟩ := hre
    refine ⟨by rw [hpermEq]; exact h1, by rw [hvmEq]; exact h2, row, ?_, hm1, hm2⟩
    refine hpersist3 row hrow ?_
    unfold PermView.validB
    rw [hm1, hm2]
    rfl
  have hreR := hre_out _ _ hre3r
  have hreE := hre_out _ _ hre3e
  -- role-record transfer from the seeded store to s'
  have hfind_chain : ∀ n r, EXISTING_ROLES.contains n = true → ¬(n = "Admin") →
      find_role s2 n = some r → find_role s' n = some r := by
    intro n r hres hnadm hfind
    rw [find_role_eq_of_roles_eq s4 s' hrolesEq n,
      find_role_update_admin_other s3 s4 n hadmin hnadm,
      find_role_propagate t3 s3 n hprop hres,
      find_role_eq_of_roles_eq s2 t3 haddo3.roles_eq n]
    exact hfind
  have hs2steps : s2 = init_role (init_role (init_role s1 "Viewer"
      (VIEWER_VMS ++ DAG_VMS) VIEWER_PERMS) "User"
      (VIEWER_VMS ++ DAG_VMS ++ USER_VMS)
      (VIEWER_PERMS ++ USER_PERMS ++ DAG_PERMS))
      "Op" (VIEWER_VMS ++ DAG_VMS ++ USER_VMS ++ OP_VMS)
      (VIEWER_PERMS ++ USER_PERMS ++ OP_PERMS ++ DAG_PERMS) := by
    rw [hs2def]
    unfold seedRoles ROLE_CONFIGS
    simp only [List.foldl_cons, List.foldl_nil]
  -- Viewer condition at s'
  obtain ⟨rV, hrVfind, hrVcase⟩ := config_role_cases s1 "Viewer"
    (VIEWER_VMS ++ DAG_VMS) VIEWER_PERMS s' hwf1 hnoa1
    (fun pv hpv hval => hpersist2 pv (by rw [hpvms2eq]; exact hpv) hval)
  have hrVs2 : find_role s2 "Viewer" = some rV := by
    rw [hs2steps]
    exact find_role_init_role_other _ "Op" _ _ "Viewer" rV (by decide)
      (find_role_init_role_other _ "User" _ _ "Viewer" rV (by decide) hrVfind)
  have hrVsOut : find_role s' "Viewer" = some rV :=
    hfind_chain "Viewer" rV (by decide) (by decide) hrVs2
  have hV' : ∃ r, find_role s' "Viewer" = some r ∧
      ((rolePvms s' r).length ≠ 0 ∨ (r.permissions = ∅ ∧
        seedIds s' (VIEWER_VMS ++ DAG_VMS) VIEWER_PERMS = ∅)) := by
    refine ⟨rV, hrVsOut, ?_⟩
    rcases hrVcase with hlen | ⟨hperm, hseed⟩
    · exact Or.inl hlen
    · refine Or.inr ⟨hperm, ?_⟩
      unfold seedIds
      rw [hpvmsEq, seedIdsList_filter_valid, hladd, seedIdsList_append]
      have h2zero : seedIdsList s2.pvms (VIEWER_VMS ++ DAG_VMS) VIEWER_PERMS = ∅ := by
        rw [hpvms2eq]
        exact hseed
      have hladd0 : seedIdsList ladd (VIEWER_VMS ++ DAG_VMS) VIEWER_PERMS = ∅ := by
        apply seedIdsList_empty_of
        intro pv hpv
        exact seedMatch_false_of_dagperm _ _ pv (hladdrows pv hpv).2.1
          (by decide) (by decide)
      rw [h2zero, hladd0]
      exact Finset.union_empty ∅
  -- User condition at s'
  obtain ⟨rU, hrUfind, hrUcase⟩ := config_role_cases
    (init_role s1 "Viewer" (VIEWER_VMS ++ DAG_VMS) VIEWER_PERMS) "User"
    (VIEWER_VMS ++ DAG_VMS ++ USER_VMS)
    (VIEWER_PERMS ++ USER_PERMS ++ DAG_PERMS) s'
    (WF_init_role s1 "Viewer" _ _ hwf1)
    (NOA_init_role s1 "Viewer" _ _ hwf1 hnoa1)
    (fun pv hpv hval => hpersist2 pv
      (by rw [hpvms2eq, ← init_role_pvms s1 "Viewer" (VIEWER_VMS ++ DAG_VMS) VIEWER_PERMS]; exact hpv) hval)
  have hrUs2 : find_role s2 "User" = some rU := by
    rw [hs2steps]
    exact find_role_init_role_other _ "Op" _ _ "User" rU (by decide) hrUfind
  have hrUsOut : find_role s' "User" = some rU :=
    hfind_chain "User" rU (by decide) (by decide) hrUs2
  have hreV_read : RowEstablished
      (init_role s1 "Viewer" (VIEWER_VMS ++ DAG_VMS) VIEWER_PERMS)
      "can_dag_read" "all_dags" :=
    RowEstablished_of_fields s1 _ _ _ (init_role_permissions s1 "Viewer" _ _)
      (init_role_view_menus s1 "Viewer" _ _) (init_role_pvms s1 "Viewer" _ _)
      (cpvfad_post s).1
  have hUleft : (rolePvms s' rU).length ≠ 0 := by
    rcases hrUcase with hlen | ⟨_, hseed⟩
    · exact hlen
    · exfalso
      obtain ⟨_, _, row, hrow, hm1, hm2⟩ := hreV_read
      refine seedIds_nonempty_of_row _ _ _ row hrow ?_ hseed
      unfold seedMatch
      rw [hm1, hm2]
      decide
  have hU' : ∃ r, find_role s' "User" = some r ∧
      ((rolePvms s' r).length ≠ 0 ∨ (r.permissions = ∅ ∧
        seedIds s' (VIEWER_VMS ++ DAG_VMS ++ USER_VMS)
          (VIEWER_PERMS ++ USER_PERMS ++ DAG_PERMS) = ∅)) :=
    ⟨rU, hrUsOut, Or.inl hUleft⟩
  -- Op condition at s'
  obtain ⟨rO, hrOfind, hrOcase⟩ := config_role_cases
    (init_role (init_role s1 "Viewer" (VIEWER_VMS ++ DAG_VMS) VIEWER_PERMS)
      "User" (VIEWER_VMS ++ DAG_VMS ++ USER_VMS)
      (VIEWER_PERMS ++ USER_PERMS ++ DAG_PERMS)) "Op"
    (VIEWER_VMS ++ DAG_VMS ++ USER_VMS ++ OP_VMS)
    (VIEWER_PERMS ++ USER_PERMS ++ OP_PERMS ++ DAG_PERMS) s'
    (WF_init_role _ "User" _ _ (WF_init_role s1 "Viewer" _ _ hwf1))
    (NOA_init_role _ "User" _ _ (WF_init_role s1 "Viewer" _ _ hwf1)
      (NOA_init_role s1 "Viewer" _ _ hwf1 hnoa1))
    (fun pv hpv hval => hpersist2 pv
      (by rw [hpvms2eq,
            ← init_role_pvms s1 "Viewer" (VIEWER_VMS ++ DAG_VMS) VIEWER_PERMS,
            ← init_role_pvms (init_role s1 "Viewer" (VIEWER_VMS ++ DAG_VMS) VIEWER_PERMS)
              "User" (VIEWER_VMS ++ DAG_VMS ++ USER_VMS)
              (VIEWER_PERMS ++ USER_PERMS ++ DAG_PERMS)]
          exact hpv) hval)
  have hrOs2 : find_role s2 "Op" = some rO := by
    rw [hs2steps]
    exact hrOfind
  have hrOsOut : find_role s' "Op" = some rO :=
    hfind_chain "Op" rO (by decide) (by decide) hrOs2
  have hreU_read : RowEstablished
      (init_role (init_role s1 "Viewer" (VIEWER_VMS ++ DAG_VMS) VIEWER_PERMS)
        "User" (VIEWER_VMS ++ DAG_VMS ++ USER_VMS)
        (VIEWER_PERMS ++ USER_PERMS ++ DAG_PERMS))
      "can_dag_read" "all_dags" :=
    RowEstablished_of_fields _ _ _ _ (init_role_permissions _ "User" _ _)
      (init_role_view_menus _ "User" _ _) (init_role_pvms _ "User" _ _)
      hreV_read
  have hOleft : (rolePvms s' rO).length ≠ 0 := by
    rcases hrOcase with hlen | ⟨_, hseed⟩
    · exact hlen
    · exfalso
      obtain ⟨_, _, row, hrow, hm1, hm2⟩ := hreU_read
      refine seedIds_nonempty_of_row _ _ _ row hrow ?_ hseed
      unfold seedMatch
      rw [hm1, hm2]
      decide
  have hO' : ∃ r, find_role s' "Op" = some r ∧
      ((rolePvms s' r).length ≠ 0 ∨ (r.permissions = ∅ ∧
        seedIds s' (VIEWER_VMS ++ DAG_VMS ++ USER_VMS ++ OP_VMS)
          (VIEWER_PERMS ++ USER_PERMS ++ OP_PERMS ++ DAG_PERMS) = ∅)) :=
    ⟨rO, hrOsOut, Or.inl hOleft⟩
  -- the per-dag pairs at s'
  have hpairsOut : ∀ d ∈ dags.filter
      (fun d => (d.is_active || d.is_paused) && !d.is_subdag),
      ∀ perm, perm = "can_dag_read" ∨ perm = "can_dag_edit" →
        d.dag_id = "" ∨ (d.dag_id, perm) ∈ allPvsPairs s' ∨
          RowEstablished s' perm d.dag_id := by
    intro d hd perm hperm
    rcases provision_pairs_established dags s2 d hd perm hperm with hc | hc | hc
    · exact Or.inl hc
    · refine Or.inr (Or.inl ?_)
      rw [mem_allPvsPairs] at hc ⊢
      obtain ⟨row, hrow, hm1, hm2⟩ := hc
      refine ⟨row, ?_, hm1, hm2⟩
      refine hpersist2 row hrow ?_
      unfold PermView.validB
      rw [hm1, hm2]
      rfl
    · exact Or.inr (Or.inr (hre_out _ _ hc))
  -- the User role and the dynamic-role superset at s'
  have hfinduOut : find_role s' "User" = some u := by
    have hu2 : find_role s2 "User" = some u := by
      rw [← find_role_eq_of_roles_eq s2 t3 haddo3.roles_eq "User"]
      exact hu
    exact hfind_chain "User" u (by decide) (by decide) hu2
  have hvmOut : s'.view_menus.contains "all_dags" = true := by
    rw [hvmEq]
    exact hvm3
  have hsubOut : ∀ r ∈ s'.roles, ¬(EXISTING_ROLES.contains r.name = true) →
      refIds s' u ⊆ r.permissions := by
    intro r hr hdyn
    have hrefsub : refIds s' u ⊆ refIds t3 u := by
      intro i hi
      rw [mem_refIds] at hi ⊢
      obtain ⟨hiu, row, hrow, hid, hsome, hne⟩ := hi
      refine ⟨hiu, row, ?_, hid, hsome, hne⟩
      rw [hpvmsEq, List.mem_filter] at hrow
      exact hrow.1
    refine subset_trans hrefsub ?_
    rw [hrolesEq, hroles4eq] at hr
    obtain ⟨r3, hr3, hr3eq⟩ := List.mem_map.mp hr
    have hr3name : r3.name = r.name := by
      rw [← hr3eq]
      split <;> rfl
    have hnadm : ¬(r3.name = "Admin") := by
      intro hc
      apply hdyn
      rw [← hr3name, hc]
      rfl
    have hrr3 : r = r3 := by
      rw [← hr3eq, if_neg hnadm]
    rw [hroles3eq] at hr3
    obtain ⟨r0, hr0, hr0eq⟩ := List.mem_map.mp hr3
    have hr0name : r0.name = r3.name := by
      rw [← hr0eq]
      split <;> rfl
    have hdyn0 : ¬(EXISTING_ROLES.contains r0.name = true) := by
      rw [hr0name, hr3name]
      exact hdyn
    rw [hrr3, ← hr0eq, if_neg hdyn0]
    intro i hi
    simp only
    rw [Finset.mem_union]
    by_cases h0 : i ∈ r0.permissions
    · exact Or.inl h0
    · exact Or.inr (Finset.mem_sdiff.mpr ⟨hi, h0⟩)
  -- the Admin role at s'
  have hAname : admin.name = "Admin" :=
    find_role_some_name s3 "Admin" admin hadminfind
  have haOut : find_role s' "Admin" = some ⟨admin.name,
      (admin.permissions.filter
        (fun i => s3.pvms.any (fun pv => pv.id == i))) ∪ validIds s3⟩ := by
    rw [find_role_eq_of_roles_eq s4 s' hrolesEq "Admin",
      find_role_eq_of_roles_map s3 s4 _ hroles4eq (fun r => by split <;> rfl)
        "Admin", hadminfind]
    simp only [Option.map_some']
    rw [if_pos hAname]
  have hrowsOut : ∀ i ∈ (admin.permissions.filter
      (fun i => s3.pvms.any (fun pv => pv.id == i))) ∪ validIds s3,
      s'.pvms.any (fun pv => pv.id == i) = true := by
    intro i hi
    rcases Finset.mem_union.mp hi with hm | hm
    · obtain ⟨hmem, hany⟩ := Finset.mem_filter.mp hm
      rw [List.any_eq_true] at hany
      obtain ⟨row, hrow, hbeq⟩ := hany
      have hid : row.id = i := by simpa using hbeq
      have hrowvalid : row.validB = true :=
        hnoa3 admin (find_role_mem s3 "Admin" admin hadminfind) i hmem row
          hrow hid
      have hrowOut : row ∈ s'.pvms :=
        hpersist3 row (by rw [← hpvms3eq]; exact hrow) hrowvalid
      rw [List.any_eq_true]
      exact ⟨row, hrowOut, by simpa using hid⟩
    · obtain ⟨row, hrow, hrowvalid, hid⟩ := (mem_validIds_exists s3 i).mp hm
      have hrowOut : row ∈ s'.pvms :=
        hpersist3 row (by rw [← hpvms3eq]; exact hrow) hrowvalid
      rw [List.any_eq_true]
      exact ⟨row, hrowOut, by simpa using hid⟩
  have hvalidsubOut : validIds s' ⊆ (admin.permissions.filter
      (fun i => s3.pvms.any (fun pv => pv.id == i))) ∪ validIds s3 := by
    intro i hi
    obtain ⟨row, hrow, hrowvalid, hid⟩ := (mem_validIds_exists s' i).mp hi
    refine Finset.mem_union_right _ ?_
    rw [mem_validIds_exists]
    refine ⟨row, ?_, hrowvalid, hid⟩
    rw [hpvms3eq]
    rw [hpvmsEq, List.mem_filter] at hrow
    exact hrow.1
  -- run two is the identity
  have hP1 : create_perm_vm_for_all_dag s' = s' := cpvfad_noop s' hreR hreE
  have hP2 : seedRoles s' = s' := seedRoles_noop s' hnd' hV' hU' hO'
  have hP3 : provisionDagPvms dags s' = s' :=
    provision_noop dags s' hreR hreE hpairsOut
  have hP4 : propagateUserPerms s' = some s' :=
    propagate_noop s' u hfinduOut hvmOut hsubOut
  have hP5 : update_admin_perm_view s' = some s' :=
    update_admin_noop s' ⟨admin.name,
      (admin.permissions.filter
        (fun i => s3.pvms.any (fun pv => pv.id == i))) ∪ validIds s3⟩
      hnd' haOut hrowsOut hvalidsubOut
  have hcc : create_custom_dag_permission_view dags
      (seedRoles (create_perm_vm_for_all_dag s')) = some s' := by
    rw [hP1, hP2]
    unfold create_custom_dag_permission_view
    rw [hP3]
    exact hP4
  unfold sync_roles
  dsimp only
  rw [hcc]
  dsimp only
  rw [hP5]
  dsimp only
  rw [clean_noop s' hvalid']

/-- Counterexample to C1 as stated (idempotence for every store): starting
from a store where the Viewer role is attached to an orphan grant row, the
first run deletes the row but leaves the dangling id 0 inside Viewer (so its
joined grant list is empty while its raw id set is not), and the second run
therefore re-seeds Viewer with id 1; the stores after run one and run two
differ. -/
theorem C1_counterexample :
    sync_roles []
      ⟨["menu_access"], ["Browse"],
        [⟨0, none, some "Browse"⟩, ⟨1, some "menu_access", some "Browse"⟩],
        [⟨"Admin", ∅⟩, ⟨"Viewer", {0}⟩], 2⟩ =
      some ⟨["menu_access", "can_dag_read", "can_dag_edit"],
        ["Browse", "all_dags"],
        [⟨1, some "menu_access", some "Browse"⟩,
         ⟨2, some "can_dag_read", some "all_dags"⟩,
         ⟨3, some "can_dag_edit", some "all_dags"⟩],
        [⟨"Admin", {1, 2, 3}⟩, ⟨"Viewer", {0}⟩, ⟨"User", {1, 2, 3}⟩,
         ⟨"Op", {1, 2, 3}⟩], 4⟩ ∧
    sync_roles []
      ⟨["menu_access", "can_dag_read", "can_dag_edit"],
        ["Browse", "all_dags"],
        [⟨1, some "menu_access", some "Browse"⟩,
         ⟨2, some "can_dag_read", some "all_dags"⟩,
         ⟨3, some "can_dag_edit", some "all_dags"⟩],
        [⟨"Admin", {1, 2, 3}⟩, ⟨"Viewer", {0}⟩, ⟨"User", {1, 2, 3}⟩,
         ⟨"Op", {1, 2, 3}⟩], 4⟩ ≠
      some ⟨["menu_access", "can_dag_read", "can_dag_edit"],
        ["Browse", "all_dags"],
        [⟨1, some "menu_access", some "Browse"⟩,
         ⟨2, some "can_dag_read", some "all_dags"⟩,
         ⟨3, some "can_dag_edit", some "all_dags"⟩],
        [⟨"Admin", {1, 2, 3}⟩, ⟨"Viewer", {0}⟩, ⟨"User", {1, 2, 3}⟩,
         ⟨"Op", {1, 2, 3}⟩], 4⟩ := by
  refine ⟨by decide, by decide⟩

/-- Witness for C1 (amended): the idempotence theorem applied to the run of
`sync_roles` on a minimal well-formed store holding only an empty Admin
role, whose output is computed concretely. -/
theorem C1_witness :
    sync_roles [] ⟨["can_dag_read", "can_dag_edit"], ["all_dags"],
      [⟨0, some "can_dag_read", some "all_dags"⟩,
       ⟨1, some "can_dag_edit", some "all_dags"⟩],
      [⟨"Admin", {0, 1}⟩, ⟨"Viewer", ∅⟩, ⟨"User", {0, 1}⟩, ⟨"Op", {0, 1}⟩],
      2⟩ =
    some ⟨["can_dag_read", "can_dag_edit"], ["all_dags"],
      [⟨0, some "can_dag_read", some "all_dags"⟩,
       ⟨1, some "can_dag_edit", some "all_dags"⟩],
      [⟨"Admin", {0, 1}⟩, ⟨"Viewer", ∅⟩, ⟨"User", {0, 1}⟩, ⟨"Op", {0, 1}⟩],
      2⟩ :=
  C1_sync_roles_idempotent [] ⟨[], [], [], [⟨"Admin", ∅⟩], 0⟩ _
    (by decide) (by decide) (by decide)

/-! ## Claim theorems: C6, C9, C10 -/

theorem clean_perms_mem_valid (s : Store) (pv : PermView)
    (h : pv ∈ ((clean_perms s).1).pvms) : pv.validB = true := by
  unfold clean_perms at h
  simp only [List.mem_filter] at h
  exact h.2

/-- Claim C6 — Orphan cleanup: after `sync_roles` no null-reference grant row
remains; `clean_perms` keeps exactly the rows with both references set;
the reported count is the number of faulty rows; and on a store whose only
faulty row is a single row with a null permission reference, the reported
count is `1` and that row is gone. -/
theorem C6_clean_perms_spec :
    (∀ dags s s', sync_roles dags s = some s' → ∀ pv ∈ s'.pvms, pv.validB = true) ∧
    (∀ s pv, pv.validB = true → (pv ∈ ((clean_perms s).1).pvms ↔ pv ∈ s.pvms)) ∧
    (∀ s, (clean_perms s).2 =
      (s.pvms.filter (fun pv => pv.permission.isNone || pv.view_menu.isNone)).length) ∧
    (∀ s pv0,
      s.pvms.filter (fun pv => pv.permission.isNone || pv.view_menu.isNone) = [pv0] →
      (clean_perms s).2 = 1 ∧ pv0 ∉ ((clean_perms s).1).pvms) := by
  refine ⟨?_, ?_, ?_, ?_⟩
  · intro dags s s' h pv hpv
    unfold sync_roles at h
    dsimp only at h
    split at h
    · cases h
    · split at h
      · cases h
      · next s4 _ =>
        simp only [Option.some.injEq] at h
        subst h
        exact clean_perms_mem_valid s4 pv hpv
  · intro s pv hv
    unfold clean_perms
    simp [List.mem_filter, hv]
  · intro s
    rfl
  · intro s pv0 h1
    have hcount : (clean_perms s).2 = 1 := by
      show (s.pvms.filter _).length = 1
      rw [h1]
      rfl
    refine ⟨hcount, ?_⟩
    intro hmem
    have hv := clean_perms_mem_valid s pv0 hmem
    have hpv0 : pv0 ∈ s.pvms.filter (fun pv => pv.permission.isNone || pv.view_menu.isNone) := by
      rw [h1]; simp
    simp only [List.mem_filter] at hpv0
    have := hpv0.2
    unfold PermView.validB at hv
    cases hp : pv0.permission <;> cases hvm : pv0.view_menu <;>
      simp [hp, hvm] at hv this

/-- Witness for C6 at a concrete store: a single grant row with a null
permission reference is deleted and the count is `1`; the sync output of a
small concrete store has only valid rows. -/
theorem C6_witness :
    ((clean_perms ⟨[], ["x"], [⟨0, none, some "x"⟩, ⟨1, some "p", some "x"⟩], [], 2⟩).2 = 1 ∧
      (⟨0, none, some "x"⟩ : PermView) ∉
        ((clean_perms ⟨[], ["x"], [⟨0, none, some "x"⟩, ⟨1, some "p", some "x"⟩], [], 2⟩).1).pvms) :=
  C6_clean_perms_spec.2.2.2
    ⟨[], ["x"], [⟨0, none, some "x"⟩, ⟨1, some "p", some "x"⟩], [], 2⟩
    ⟨0, none, some "x"⟩ (by decide)

/-- Claim C9 — No duplicate grants: if a valid grant row for a (permission,
resource) pair already exists (with its two name rows, as referential
integrity guarantees), `_merge_perm` changes nothing; and
`sync_perm_for_dag` is idempotent. -/
theorem C9_no_duplicate_grants :
    (∀ s p v, p ∈ s.permissions → v ∈ s.view_menus →
      (∃ pv ∈ s.pvms, pv.permission = some p ∧ pv.view_menu = some v) →
      merge_perm s p v = s) ∧
    (∀ s d, sync_perm_for_dag (sync_perm_for_dag s d) d = sync_perm_for_dag s d) := by
  constructor
  · intro s p v h1 h2 h3
    unfold merge_perm
    have hfound : (find_permission_view_menu s p v).isSome = true :=
      (fpvm_isSome_iff s p v).mpr ⟨h1, h2, h3⟩
    simp [hfound]
  · intro s d
    unfold sync_perm_for_dag
    simp only [DAG_PERMS, List.foldl_cons, List.foldl_nil]
    set t2 := syncPermStep (syncPermStep s "can_dag_read" d) "can_dag_edit" d with ht2
    have hread : (find_permission_view_menu t2 "can_dag_read" d).isSome = true :=
      syncPermStep_mono _ _ _ _ (syncPermStep_found s "can_dag_read" d)
    have hedit : (find_permission_view_menu t2 "can_dag_edit" d).isSome = true :=
      syncPermStep_found _ "can_dag_edit" d
    rw [syncPermStep_of_found t2 "can_dag_read" d hread,
        syncPermStep_of_found t2 "can_dag_edit" d hedit]

/-- Witness for C9 at concrete inputs. -/
theorem C9_witness :
    merge_perm ⟨["p"], ["v"], [⟨0, some "p", some "v"⟩], [], 1⟩ "p" "v" =
      ⟨["p"], ["v"], [⟨0, some "p", some "v"⟩], [], 1⟩ ∧
    sync_perm_for_dag (sync_perm_for_dag ⟨[], [], [], [], 0⟩ "wf-1") "wf-1" =
      sync_perm_for_dag ⟨[], [], [], [], 0⟩ "wf-1" :=
  ⟨C9_no_duplicate_grants.1 _ "p" "v" (by decide) (by decide)
      ⟨⟨0, some "p", some "v"⟩, by decide, rfl, rfl⟩,
    C9_no_duplicate_grants.2 _ "wf-1"⟩

/-- Claim C10 — One-sided cache staleness in `_has_perm`: a `false` answer is
always decided against the permission set freshly recomputed from the
current user's roles (and that fresh set becomes the new cache), while a
`true` answer can come from a stale cache: at a concrete input the cached
pair yields `true` even though the freshly computed set does not contain
it. -/
theorem C10_has_perm_cache_one_sided :
    (∀ pub s u cache p v, (has_perm pub s u cache p v).1 = false →
      ((p, v) ∉ get_all_permissions_views pub s u ∧
        (has_perm pub s u cache p v).2 = get_all_permissions_views pub s u)) ∧
    (has_perm none ⟨[], [], [], [], 0⟩ ⟨false, []⟩ (some {("a", "b")}) "a" "b" =
        (true, {("a", "b")}) ∧
      ("a", "b") ∉ get_all_permissions_views none ⟨[], [], [], [], 0⟩ ⟨false, []⟩) := by
  constructor
  · intro pub s u cache p v h
    cases cache with
    | none =>
      refine ⟨?_, rfl⟩
      have hfst : (has_perm pub s u none p v).1 =
          decide ((p, v) ∈ get_all_permissions_views pub s u) := rfl
      rw [hfst] at h
      simpa using h
    | some perms =>
      by_cases hmem : (p, v) ∈ perms
      · exfalso
        have htrue : (has_perm pub s u (some perms) p v).1 = true := by
          simp [has_perm, hmem]
        rw [h] at htrue
        cases htrue
      · refine ⟨?_, ?_⟩
        · have hfst : (has_perm pub s u (some perms) p v).1 =
              decide ((p, v) ∈ get_all_permissions_views pub s u) := by
            simp [has_perm, hmem]
          rw [hfst] at h
          simpa using h
        · simp [has_perm, hmem]
  · constructor
    · decide
    · decide

/-- Witness for C10: the universal part applied at a concrete input whose
answer is `false`. -/
theorem C10_witness :
    ("x", "y") ∉ get_all_permissions_views none ⟨[], [], [], [], 0⟩ ⟨false, []⟩ ∧
      (has_perm none ⟨[], [], [], [], 0⟩ ⟨false, []⟩ none "x" "y").2 =
        get_all_permissions_views none ⟨[], [], [], [], 0⟩ ⟨false, []⟩ :=
  C10_has_perm_cache_one_sided.1 none ⟨[], [], [], [], 0⟩ ⟨false, []⟩ none "x" "y"
    (by decide)

end AirflowRbac
